import Mathlib

/-!
Verification of the portfolio valuation and technical-signal engine of the
`personnal_invest_report_assistant` repository (src/valuation.py,
src/technical.py).  The Python code is shallowly embedded: dates become a
structure of naturals ordered lexicographically, pandas series of
(timestamp, value) rows become `List (Date × ℚ)`, floats become `ℚ`
(binary-float representation is abstracted), `None` becomes `Option`, and
Python's `round` is modelled as exact half-to-even rounding on rationals.
Each definition carries a comment naming the Python function it embeds.
-/

set_option maxRecDepth 100000

namespace InvestReport

/-- A calendar date, as carried by `datetime.date`: compared
lexicographically by (year, month, day). -/
structure Date where
  year : Nat
  month : Nat
  day : Nat
deriving DecidableEq

/-- Strict order on dates, exactly the comparison Python performs on
`datetime.date` values. -/
def dateLt (a b : Date) : Bool :=
  decide (a.year < b.year ∨ (a.year = b.year ∧
    (a.month < b.month ∨ (a.month = b.month ∧ a.day < b.day))))

/-- A timestamp, as carried by `datetime.datetime`. -/
structure DateTime where
  date : Date
  hour : Nat
  minute : Nat
  second : Nat
deriving DecidableEq

theorem dateLt_irrefl (a : Date) : dateLt a a = false := by
  simp [dateLt]

theorem dateLt_trans {a b c : Date} (h1 : dateLt a b = true)
    (h2 : dateLt b c = true) : dateLt a c = true := by
  simp only [dateLt, decide_eq_true_eq] at *
  omega

theorem dateLt_total {a b : Date} (h1 : dateLt a b = false)
    (h2 : dateLt b a = false) : a = b := by
  cases a; cases b
  simp only [dateLt, decide_eq_false_iff_not] at h1 h2
  simp only [Date.mk.injEq]
  omega

theorem dateLt_asymm {a b : Date} (h : dateLt a b = true) :
    dateLt b a = false := by
  simp only [dateLt, decide_eq_true_eq, decide_eq_false_iff_not] at *
  omega

/-- Left fold computing the least date, used to model
`sorted(list_of_dates)[0]`. -/
def foldMin (d : Date) (ds : List Date) : Date :=
  ds.foldl (fun a b => if dateLt b a then b else a) d

/-- Least element of a list of dates (`sorted(l)[0]` on a non-empty list,
`none` when the list is empty). -/
def minDate? : List Date → Option Date
  | [] => none
  | d :: ds => some (foldMin d ds)

theorem foldMin_mem (d : Date) (ds : List Date) :
    foldMin d ds ∈ d :: ds := by
  induction ds generalizing d with
  | nil => simp [foldMin]
  | cons b t ih =>
    have : foldMin d (b :: t) = foldMin (if dateLt b d then b else d) t := by
      simp [foldMin, List.foldl_cons]
    rw [this]
    rcases List.mem_cons.mp (ih (if dateLt b d then b else d)) with h | h
    · rw [h]
      by_cases hb : dateLt b d = true
      · simp [hb]
      · simp only [Bool.not_eq_true] at hb
        simp [hb]
    · simp [h]

theorem foldMin_min (d : Date) (ds : List Date) :
    ∀ e ∈ d :: ds, dateLt e (foldMin d ds) = false := by
  induction ds generalizing d with
  | nil =>
    intro e he
    simp only [List.mem_cons, List.not_mem_nil, or_false] at he
    subst he
    simp [foldMin, dateLt_irrefl]
  | cons b t ih =>
    intro e he
    have hfold : foldMin d (b :: t) = foldMin (if dateLt b d then b else d) t := by
      simp [foldMin, List.foldl_cons]
    rw [hfold]
    rcases List.mem_cons.mp he with rfl | he2
    · -- e = d
      by_cases hb : dateLt b e = true
      · -- running minimum becomes b; if e were below the result, so would b be
        simp only [hb, if_true]
        by_contra hcon
        simp only [Bool.not_eq_false] at hcon
        have hbr : dateLt b (foldMin b t) = false := ih b b (List.mem_cons_self b t)
        have : dateLt b (foldMin b t) = true := dateLt_trans hb hcon
        rw [this] at hbr
        simp at hbr
      · simp only [Bool.not_eq_true] at hb
        simp [hb]
        exact ih e e (List.mem_cons_self e t)
    · rcases List.mem_cons.mp he2 with rfl | he3
      · -- e = b
        by_cases hb : dateLt e d = true
        · simp only [hb, if_true]
          exact ih e e (List.mem_cons_self e t)
        · simp only [Bool.not_eq_true] at hb
          simp only [hb, Bool.false_eq_true, if_false]
          by_contra hcon
          simp only [Bool.not_eq_false] at hcon
          have hdr : dateLt d (foldMin d t) = false := ih d d (List.mem_cons_self d t)
          by_cases hdb : dateLt d e = true
          · have : dateLt d (foldMin d t) = true := dateLt_trans hdb hcon
            rw [this] at hdr
            simp at hdr
          · simp only [Bool.not_eq_true] at hdb
            have : d = e := dateLt_total hdb hb
            subst this
            rw [hcon] at hdr
            simp at hdr
      · -- e ∈ t
        by_cases hb : dateLt b d = true
        · simp only [hb, if_true]
          exact ih b e (List.mem_cons_of_mem b he3)
        · simp only [Bool.not_eq_true] at hb
          simp only [hb, Bool.false_eq_true, if_false]
          exact ih d e (List.mem_cons_of_mem d he3)

theorem minDate?_none {l : List Date} : minDate? l = none ↔ l = [] := by
  cases l <;> simp [minDate?]

theorem minDate?_spec {l : List Date} {m : Date} (h : minDate? l = some m) :
    m ∈ l ∧ ∀ e ∈ l, dateLt e m = false := by
  cases l with
  | nil => simp [minDate?] at h
  | cons d ds =>
    simp only [minDate?, Option.some.injEq] at h
    subst h
    exact ⟨foldMin_mem d ds, foldMin_min d ds⟩

theorem minDate?_unique {l : List Date} {m d : Date}
    (h : minDate? l = some m) (hd : d ∈ l)
    (hmin : ∀ e ∈ l, dateLt e d = false) : m = d := by
  obtain ⟨hm, hmmin⟩ := minDate?_spec h
  exact dateLt_total (hmin m hm) (hmmin d hd)

/-! ### NAV series and confirmation dates (src/valuation.py) -/

/-- The trading days of a NAV series: the dates carrying a NAV.  Embeds
`set(nav_df['date'].dt.date)`; deduplication is dropped because neither
membership nor the minimum of the later-days set is affected by it. -/
def tradingDays (nav : List (Date × ℚ)) : List Date :=
  nav.map Prod.fst

/-- Embeds `get_nav_confirm_date` (valuation.py): an order placed before
15:00 on a trading day confirms the same day, otherwise it confirms on the
next later trading day of the series, and `none` when no such day exists.
`sorted([d for d in trading_days if d > order_date])[0]` is the minimum of
the strictly-later trading days. -/
def get_nav_confirm_date (orderTime : DateTime) (nav : List (Date × ℚ)) :
    Option Date :=
  let days := tradingDays nav
  if orderTime.date ∈ days ∧ orderTime.hour < 15 then
    some orderTime.date
  else
    minDate? (days.filter (fun d => dateLt orderTime.date d))

/-- Insertion step of a stable sort by date, modelling
`df.sort_values('date')`. -/
def insertByDate (e : Date × ℚ) : List (Date × ℚ) → List (Date × ℚ)
  | [] => [e]
  | f :: t => if dateLt f.1 e.1 then f :: insertByDate e t else e :: f :: t

/-- Stable sort of a NAV series by ascending date
(`df.sort_values('date')`). -/
def sortByDate (l : List (Date × ℚ)) : List (Date × ℚ) :=
  l.foldr insertByDate []

theorem mem_insertByDate {a e : Date × ℚ} {l : List (Date × ℚ)} :
    a ∈ insertByDate e l ↔ a = e ∨ a ∈ l := by
  induction l with
  | nil => simp [insertByDate]
  | cons f t ih =>
    simp only [insertByDate]
    by_cases h : dateLt f.1 e.1 = true
    · simp only [h, if_true, List.mem_cons, ih]
      try tauto
    · simp only [Bool.not_eq_true] at h
      simp only [h, Bool.false_eq_true, if_false, List.mem_cons]
      try tauto

theorem mem_sortByDate {a : Date × ℚ} {l : List (Date × ℚ)} :
    a ∈ sortByDate l ↔ a ∈ l := by
  induction l with
  | nil => simp [sortByDate]
  | cons f t ih =>
    simp only [sortByDate, List.foldr_cons] at *
    rw [mem_insertByDate, ih, List.mem_cons]

/-- `nav_date ≥ cutoff` where `nav_date` is a midnight timestamp (pandas
NAV dates) and `cutoff = datetime.now() - timedelta(days=days)` is a full
timestamp: true when the date is strictly later, or equal with the cutoff
itself at midnight. -/
def midnightLE (c : DateTime) (d : Date) : Bool :=
  dateLt c.date d ||
    decide (c.date = d ∧ c.hour = 0 ∧ c.minute = 0 ∧ c.second = 0)

/-- Embeds the post-processing of `get_fund_nav_history` (valuation.py):
the externally fetched raw NAV rows are sorted by date and trimmed to the
trailing window `df[df['date'] >= cutoff]` (the fetch itself is an
external collaborator and is taken as the `raw` argument). -/
def get_fund_nav_history (cutoff : DateTime) (raw : List (Date × ℚ)) :
    List (Date × ℚ) :=
  (sortByDate raw).filter (fun e => midnightLE cutoff e.1)

/-- Claim C1: `get_nav_confirm_date` confirms a buy order on the order's
own date when that date carries a NAV and the order is strictly before
15:00; otherwise on the least strictly-later date carrying a NAV; and
returns the sentinel `none` when no later such date exists. -/
theorem claim_C1_nav_confirm_rule (nav : List (Date × ℚ)) (t : DateTime) :
    (t.date ∈ tradingDays nav → t.hour < 15 →
      get_nav_confirm_date t nav = some t.date)
  ∧ (¬ (t.date ∈ tradingDays nav ∧ t.hour < 15) →
      ∀ d : Date, get_nav_confirm_date t nav = some d ↔
        (d ∈ tradingDays nav ∧ dateLt t.date d = true ∧
          ∀ e ∈ tradingDays nav, dateLt t.date e = true → dateLt e d = false))
  ∧ ((∀ e ∈ tradingDays nav, dateLt t.date e = false) →
      ¬ (t.date ∈ tradingDays nav ∧ t.hour < 15) →
      get_nav_confirm_date t nav = none) := by
  refine ⟨?_, ?_, ?_⟩
  · intro hmem hhour
    simp [get_nav_confirm_date, hmem, hhour]
  · intro hnot d
    simp only [get_nav_confirm_date, if_neg hnot]
    constructor
    · intro h
      obtain ⟨hm, hmin⟩ := minDate?_spec h
      rw [List.mem_filter] at hm
      refine ⟨hm.1, hm.2, ?_⟩
      intro e he hlt
      exact hmin e (List.mem_filter.mpr ⟨he, hlt⟩)
    · rintro ⟨hmem, hlt, hmin⟩
      have hdk : d ∈ (tradingDays nav).filter (fun e => dateLt t.date e) :=
        List.mem_filter.mpr ⟨hmem, hlt⟩
      have hne : (tradingDays nav).filter (fun e => dateLt t.date e) ≠ [] := by
        intro hnil
        rw [hnil] at hdk
        exact List.not_mem_nil d hdk
      obtain ⟨m, hm⟩ : ∃ m, minDate? ((tradingDays nav).filter
          (fun e => dateLt t.date e)) = some m := by
        cases hmm : minDate? ((tradingDays nav).filter
            (fun e => dateLt t.date e)) with
        | none => exact absurd (minDate?_none.mp hmm) hne
        | some m => exact ⟨m, rfl⟩
      rw [hm]
      have : m = d := by
        refine minDate?_unique hm hdk ?_
        intro e he
        rw [List.mem_filter] at he
        exact hmin e he.1 he.2
      rw [this]
  · intro hnone hnot
    simp only [get_nav_confirm_date, if_neg hnot]
    have : (tradingDays nav).filter (fun e => dateLt t.date e) = [] := by
      rw [List.filter_eq_nil_iff]
      intro e he
      simp [hnone e he]
    rw [this]
    rfl

/-- The worked three-day NAV calendar of the specification. -/
def navCalendarExample : List (Date × ℚ) :=
  [(⟨2024, 1, 2⟩, 1), (⟨2024, 1, 3⟩, 101 / 100), (⟨2024, 1, 4⟩, 102 / 100)]

theorem claim_C1_nav_confirm_rule_witness :
    get_nav_confirm_date ⟨⟨2024, 1, 2⟩, 14, 0, 0⟩ navCalendarExample =
      some ⟨2024, 1, 2⟩
  ∧ get_nav_confirm_date ⟨⟨2024, 1, 2⟩, 16, 0, 0⟩ navCalendarExample =
      some ⟨2024, 1, 3⟩
  ∧ get_nav_confirm_date ⟨⟨2024, 1, 5⟩, 10, 0, 0⟩ navCalendarExample =
      none := by
  refine ⟨?_, ?_, ?_⟩
  · exact (claim_C1_nav_confirm_rule navCalendarExample
      ⟨⟨2024, 1, 2⟩, 14, 0, 0⟩).1 (by decide) (by decide)
  · exact ((claim_C1_nav_confirm_rule navCalendarExample
      ⟨⟨2024, 1, 2⟩, 16, 0, 0⟩).2.1 (by decide) ⟨2024, 1, 3⟩).mpr (by decide)
  · exact (claim_C1_nav_confirm_rule navCalendarExample
      ⟨⟨2024, 1, 5⟩, 10, 0, 0⟩).2.2 (by decide) (by decide)

/-- Claim C9 (implicit): an order dated strictly before every date of the
(trimmed) NAV series is not treated as unconfirmed: `get_nav_confirm_date`
returns the earliest date of the series, and — because
`get_fund_nav_history` keeps only rows with `date >= cutoff` — that
earliest date lies inside the trailing window, not at the actual purchase
date. -/
theorem claim_C9_pre_window_orders (cutoff : DateTime)
    (raw : List (Date × ℚ)) (t : DateTime)
    (hbefore : ∀ e ∈ tradingDays (get_fund_nav_history cutoff raw),
      dateLt t.date e = true)
    (hne : get_fund_nav_history cutoff raw ≠ []) :
    ∃ m, get_nav_confirm_date t (get_fund_nav_history cutoff raw) = some m
      ∧ m ∈ tradingDays (get_fund_nav_history cutoff raw)
      ∧ (∀ e ∈ tradingDays (get_fund_nav_history cutoff raw),
          dateLt e m = false)
      ∧ midnightLE cutoff m = true := by
  set nav := get_fund_nav_history cutoff raw with hnav
  have hnotmem : t.date ∉ tradingDays nav := by
    intro hmem
    have := hbefore t.date hmem
    rw [dateLt_irrefl] at this
    exact Bool.false_ne_true this
  have hfilter : (tradingDays nav).filter (fun e => dateLt t.date e) =
      tradingDays nav := by
    rw [List.filter_eq_self]
    intro e he
    exact hbefore e he
  have hdays : tradingDays nav ≠ [] := by
    intro hnil
    apply hne
    cases h : nav with
    | nil => rfl
    | cons a l =>
      rw [h] at hnil
      simp [tradingDays] at hnil
  obtain ⟨m, hm⟩ : ∃ m, minDate? (tradingDays nav) = some m := by
    cases hmm : minDate? (tradingDays nav) with
    | none => exact absurd (minDate?_none.mp hmm) hdays
    | some m => exact ⟨m, rfl⟩
  obtain ⟨hmmem, hmmin⟩ := minDate?_spec hm
  refine ⟨m, ?_, hmmem, hmmin, ?_⟩
  · simp only [get_nav_confirm_date]
    rw [if_neg (by tauto), hfilter, hm]
  · -- every trading day of the trimmed series survived the cutoff filter
    obtain ⟨entry, hentry, hfst⟩ := List.mem_map.mp hmmem
    rw [hnav, get_fund_nav_history] at hentry
    have := List.mem_filter.mp hentry
    rw [← hfst]
    exact this.2

theorem claim_C9_pre_window_orders_witness :
    ∃ m, get_nav_confirm_date ⟨⟨2023, 11, 1⟩, 10, 0, 0⟩
        (get_fund_nav_history ⟨⟨2024, 1, 1⟩, 8, 30, 0⟩
          [(⟨2023, 12, 20⟩, 9 / 10), (⟨2024, 1, 3⟩, 1),
            (⟨2024, 1, 4⟩, 11 / 10)]) = some m
      ∧ m ∈ tradingDays (get_fund_nav_history ⟨⟨2024, 1, 1⟩, 8, 30, 0⟩
          [(⟨2023, 12, 20⟩, 9 / 10), (⟨2024, 1, 3⟩, 1),
            (⟨2024, 1, 4⟩, 11 / 10)])
      ∧ (∀ e ∈ tradingDays (get_fund_nav_history ⟨⟨2024, 1, 1⟩, 8, 30, 0⟩
          [(⟨2023, 12, 20⟩, 9 / 10), (⟨2024, 1, 3⟩, 1),
            (⟨2024, 1, 4⟩, 11 / 10)]), dateLt e m = false)
      ∧ midnightLE ⟨⟨2024, 1, 1⟩, 8, 30, 0⟩ m = true :=
  claim_C9_pre_window_orders ⟨⟨2024, 1, 1⟩, 8, 30, 0⟩
    [(⟨2023, 12, 20⟩, 9 / 10), (⟨2024, 1, 3⟩, 1), (⟨2024, 1, 4⟩, 11 / 10)]
    ⟨⟨2023, 11, 1⟩, 10, 0, 0⟩ (by decide) (by decide)

/-! ### Order-time parsing (`parse_order_date` / `parse_order_datetime`)

`datetime.strptime` is embedded as a deterministic recursive-descent
consumer of the character list: each `%Y`/`%m`/`%d`/`%H`/`%M`/`%S`
directive greedily takes up to 4 (resp. 2) digits, literal characters must
match exactly, trailing characters make the parse fail ("unconverted data
remains"), and the resulting fields are validated exactly as the
`datetime` constructor validates them. -/

/-- Greedily consume up to `w` further digits, extending `acc`. -/
def takeDigitsGo : Nat → List Char → Nat → Nat × List Char
  | 0, cs, acc => (acc, cs)
  | _ + 1, [], acc => (acc, [])
  | w + 1, c :: rest, acc =>
    if c.isDigit then takeDigitsGo w rest (acc * 10 + (c.toNat - 48))
    else (acc, c :: rest)

/-- A `strptime` numeric directive: between 1 and `w` digits, greedy. -/
def takeDigits (w : Nat) (cs : List Char) : Option (Nat × List Char) :=
  match cs with
  | [] => none
  | c :: rest =>
    if c.isDigit then some (takeDigitsGo (w - 1) rest (c.toNat - 48))
    else none

/-- A literal character of the format string. -/
def expectChar (c : Char) : List Char → Option (List Char)
  | [] => none
  | x :: rest => if x = c then some rest else none

/-- Gregorian leap-year rule used by `datetime`. -/
def isLeapYear (y : Nat) : Bool :=
  decide ((y % 4 = 0 ∧ y % 100 ≠ 0) ∨ y % 400 = 0)

def daysInMonth (y m : Nat) : Nat :=
  if m = 2 then (if isLeapYear y then 29 else 28)
  else if m = 4 ∨ m = 6 ∨ m = 9 ∨ m = 11 then 30
  else 31

/-- Field validation performed by the `datetime.date` constructor. -/
def validYMD (y m d : Nat) : Bool :=
  decide (1 ≤ y ∧ y ≤ 9999 ∧ 1 ≤ m ∧ m ≤ 12 ∧ 1 ≤ d ∧ d ≤ daysInMonth y m)

/-- The `%Y<sep>%m<sep>%d` prefix shared by all four formats. -/
def parseDateCore (sep : Char) (cs : List Char) : Option (Date × List Char) :=
  match takeDigits 4 cs with
  | none => none
  | some (y, cs1) =>
    match expectChar sep cs1 with
    | none => none
    | some cs2 =>
      match takeDigits 2 cs2 with
      | none => none
      | some (m, cs3) =>
        match expectChar sep cs3 with
        | none => none
        | some cs4 =>
          match takeDigits 2 cs4 with
          | none => none
          | some (d, cs5) =>
            if validYMD y m d then some (⟨y, m, d⟩, cs5) else none

/-- `datetime.strptime(s, '%Y<sep>%m<sep>%d')`: the whole string must be
consumed. -/
def parseDateFull (sep : Char) (s : String) : Option Date :=
  match parseDateCore sep s.data with
  | some (d, []) => some d
  | _ => none

/-- `datetime.strptime(s, '%Y/%m/%d %H:%M')`. -/
def parseDateTimeSlash (s : String) : Option DateTime :=
  match parseDateCore '/' s.data with
  | none => none
  | some (d, cs) =>
    match expectChar ' ' cs with
    | none => none
    | some cs1 =>
      match takeDigits 2 cs1 with
      | none => none
      | some (h, cs2) =>
        match expectChar ':' cs2 with
        | none => none
        | some cs3 =>
          match takeDigits 2 cs3 with
          | none => none
          | some (mi, cs4) =>
            if h ≤ 23 ∧ mi ≤ 59 ∧ cs4 = [] then some ⟨d, h, mi, 0⟩
            else none

/-- `datetime.strptime(s, '%Y-%m-%d %H:%M:%S')`. -/
def parseDateTimeDash (s : String) : Option DateTime :=
  match parseDateCore '-' s.data with
  | none => none
  | some (d, cs) =>
    match expectChar ' ' cs with
    | none => none
    | some cs1 =>
      match takeDigits 2 cs1 with
      | none => none
      | some (h, cs2) =>
        match expectChar ':' cs2 with
        | none => none
        | some cs3 =>
          match takeDigits 2 cs3 with
          | none => none
          | some (mi, cs4) =>
            match expectChar ':' cs4 with
            | none => none
            | some cs5 =>
              match takeDigits 2 cs5 with
              | none => none
              | some (sec, cs6) =>
                if h ≤ 23 ∧ mi ≤ 59 ∧ sec ≤ 61 ∧ cs6 = [] then
                  some ⟨d, h, mi, sec⟩
                else none

/-- `order_time_str.split()[0]`: first maximal run of non-whitespace
characters, `none` when the string is empty or all whitespace (in which
case the Python indexing raises and the surrounding `except` returns
`None`). -/
def firstToken (s : String) : Option String :=
  match s.data.dropWhile (fun c => c.isWhitespace) with
  | [] => none
  | cs => some (String.mk (cs.takeWhile (fun c => !c.isWhitespace)))

def containsSlash (s : String) : Bool :=
  s.data.contains '/'

/-- Embeds `parse_order_date` (valuation.py): parse the first token of
the string as a bare date; the resulting timestamp is midnight. -/
def parse_order_date (s : String) : Option DateTime :=
  match firstToken s with
  | none => none
  | some tok =>
    if containsSlash s then
      (parseDateFull '/' tok).map (fun d => ⟨d, 0, 0, 0⟩)
    else
      (parseDateFull '-' tok).map (fun d => ⟨d, 0, 0, 0⟩)

/-- Embeds `parse_order_datetime` (valuation.py): try the full
date-plus-time format first and fall back to `parse_order_date` when it
fails. -/
def parse_order_datetime (s : String) : Option DateTime :=
  if containsSlash s then
    match parseDateTimeSlash s with
    | some dt => some dt
    | none => parse_order_date s
  else
    match parseDateTimeDash s with
    | some dt => some dt
    | none => parse_order_date s

theorem takeWhile_not_eq_self {p : Char → Bool} {l : List Char}
    (h : ∀ c ∈ l, p c = false) : l.takeWhile (fun c => !p c) = l := by
  induction l with
  | nil => rfl
  | cons a t ih =>
    have ha : p a = false := h a (List.mem_cons_self a t)
    simp only [List.takeWhile_cons, ha, Bool.not_false, if_true]
    rw [ih (fun c hc => h c (List.mem_cons_of_mem a hc))]

theorem firstToken_of_no_whitespace {s : String}
    (h : ∀ c ∈ s.data, c.isWhitespace = false) (hne : s.data ≠ []) :
    firstToken s = some s := by
  cases hs : s.data with
  | nil => exact absurd hs hne
  | cons a t =>
    have ha : a.isWhitespace = false := by
      apply h
      rw [hs]
      exact List.mem_cons_self a t
    have hdrop : s.data.dropWhile (fun c => c.isWhitespace) = a :: t := by
      rw [hs, List.dropWhile_cons, ha]
      simp
    have htake : (a :: t).takeWhile (fun c => !c.isWhitespace) = a :: t := by
      apply takeWhile_not_eq_self
      intro c hc
      apply h
      rw [hs]
      exact hc
    simp only [firstToken, hdrop, htake]
    rw [← hs]

theorem parseDateFull_core {sep : Char} {tok : String} {d : Date}
    (h : parseDateFull sep tok = some d) :
    parseDateCore sep tok.data = some (d, []) := by
  unfold parseDateFull at h
  cases hc : parseDateCore sep tok.data with
  | none =>
    rw [hc] at h
    exact Option.noConfusion h
  | some pr =>
    obtain ⟨d', rest⟩ := pr
    cases rest with
    | nil =>
      rw [hc] at h
      have h2 : some d' = some d := h
      injection h2 with h3
      rw [h3]
    | cons x xs =>
      rw [hc] at h
      exact Option.noConfusion h

/-- Claim C10 (implicit): an order-time string that is a bare date (no
whitespace, hence no time-of-day component) fails the full datetime
format, falls back to `parse_order_date`, and yields a midnight
timestamp; such an order placed on a trading day therefore always beats
the 15:00 cutoff and confirms at that same day's NAV. -/
theorem claim_C10_date_only_orders (s : String) (dt : DateTime)
    (hnws : ∀ c ∈ s.data, c.isWhitespace = false)
    (hparse : parse_order_date s = some dt) :
    parse_order_datetime s = some dt ∧ dt.hour = 0 ∧
    ∀ nav : List (Date × ℚ), dt.date ∈ tradingDays nav →
      get_nav_confirm_date dt nav = some dt.date := by
  have hne : s.data ≠ [] := by
    intro hnil
    rw [parse_order_date] at hparse
    have : firstToken s = none := by
      rw [firstToken, hnil]
      rfl
    rw [this] at hparse
    exact absurd hparse (by simp)
  have htok : firstToken s = some s := firstToken_of_no_whitespace hnws hne
  have hp2 := hparse
  simp only [parse_order_date, htok] at hp2
  have hmain : parse_order_datetime s = some dt ∧ dt.hour = 0 := by
    by_cases hsl : containsSlash s = true
    · simp only [hsl, if_true] at hp2
      obtain ⟨d, hd, hdt⟩ := Option.map_eq_some'.mp hp2
      have hcore : parseDateCore '/' s.data = some (d, []) :=
        parseDateFull_core hd
      have hfail : parseDateTimeSlash s = none := by
        rw [parseDateTimeSlash, hcore]
        rfl
      have heq : parse_order_datetime s = parse_order_date s := by
        unfold parse_order_datetime
        rw [if_pos hsl, hfail]
      constructor
      · rw [heq, hparse]
      · rw [← hdt]
    · have hsl2 : containsSlash s = false := by
        simpa using hsl
      simp only [hsl2, Bool.false_eq_true, if_false] at hp2
      obtain ⟨d, hd, hdt⟩ := Option.map_eq_some'.mp hp2
      have hcore : parseDateCore '-' s.data = some (d, []) :=
        parseDateFull_core hd
      have hfail : parseDateTimeDash s = none := by
        rw [parseDateTimeDash, hcore]
        rfl
      have heq : parse_order_datetime s = parse_order_date s := by
        unfold parse_order_datetime
        rw [hsl2]
        simp only [Bool.false_eq_true, if_false]
        rw [hfail]
      constructor
      · rw [heq, hparse]
      · rw [← hdt]
  refine ⟨hmain.1, hmain.2, ?_⟩
  intro nav hmem
  have : dt.hour < 15 := by
    rw [hmain.2]
    norm_num
  simp [get_nav_confirm_date, hmem, this]

theorem claim_C10_date_only_orders_witness :
    parse_order_datetime (String.mk
        ['2', '0', '2', '4', '-', '0', '1', '-', '0', '2']) =
      some ⟨⟨2024, 1, 2⟩, 0, 0, 0⟩
  ∧ get_nav_confirm_date ⟨⟨2024, 1, 2⟩, 0, 0, 0⟩ navCalendarExample =
      some ⟨2024, 1, 2⟩ := by
  have h := claim_C10_date_only_orders
    (String.mk ['2', '0', '2', '4', '-', '0', '1', '-', '0', '2'])
    ⟨⟨2024, 1, 2⟩, 0, 0, 0⟩ (by decide) (by decide)
  exact ⟨h.1, h.2.2 navCalendarExample (by decide)⟩

/-! ### NAV-based valuation (`calculate_fund_valuation_by_nav`) -/

/-- Python's `round` on exact rationals: round half to even. -/
def roundHalfEven (q : ℚ) : ℤ :=
  let f := q.floor
  let r := q - (f : ℚ)
  if r < 1 / 2 then f
  else if 1 / 2 < r then f + 1
  else if f % 2 = 0 then f else f + 1

/-- `round(q, n)` on exact rationals. -/
def roundDec (n : ℕ) (q : ℚ) : ℚ :=
  (roundHalfEven (q * 10 ^ n) : ℚ) / 10 ^ n

/-- Fold keeping the entry with the greatest date (on equal dates the
earlier row is kept; NAV series have unique dates, so ties never arise in
practice).  Models `df.sort_values('date', ascending=False).iloc[0]`. -/
def foldMaxEntry (e : Date × ℚ) (l : List (Date × ℚ)) : Date × ℚ :=
  l.foldl (fun a b => if dateLt a.1 b.1 then b else a) e

/-- Fold keeping the entry with the least date:
`df.sort_values('date', ascending=True).iloc[0]`. -/
def foldMinEntry (e : Date × ℚ) (l : List (Date × ℚ)) : Date × ℚ :=
  l.foldl (fun a b => if dateLt b.1 a.1 then b else a) e

/-- Embeds `get_nav_on_date` (valuation.py): the NAV on the target date,
else on the nearest prior date of the series, else (no prior data at all)
the earliest row of the series, and `none` only for an empty series. -/
def get_nav_on_date (nav : List (Date × ℚ)) (target : Date) : Option ℚ :=
  match nav.filter (fun e => ! dateLt target e.1), nav with
  | f :: t, _ => some (foldMaxEntry f t).2
  | [], f :: t => some (foldMinEntry f t).2
  | [], [] => none

/-- Embeds `get_index_value_on_date` (valuation.py); the source duplicates
the `get_nav_on_date` logic for index closes. -/
def get_index_value_on_date (idx : List (Date × ℚ)) (target : Date) :
    Option ℚ :=
  match idx.filter (fun e => ! dateLt target e.1), idx with
  | f :: t, _ => some (foldMaxEntry f t).2
  | [], f :: t => some (foldMinEntry f t).2
  | [], [] => none

/-- A buy transaction as read from the portfolio store:
`{'date': ..., 'amount': ...}`. -/
structure Tx where
  date : String
  amount : ℚ
deriving DecidableEq

/-- The per-transaction NAV resolution chain of
`calculate_fund_valuation_by_nav`: parse the order time, compute the
confirmation date, fetch the confirming NAV, and reject it when missing
or non-positive (`if not buy_nav or buy_nav <= 0`).  `none` means the
transaction is unconfirmed and passes through at its own amount. -/
def resolveTxNav (nav : List (Date × ℚ)) (tx : Tx) : Option ℚ :=
  match parse_order_datetime tx.date with
  | none => none
  | some t =>
    match get_nav_confirm_date t nav with
    | none => none
    | some cd =>
      match get_nav_on_date nav cd with
      | none => none
      | some nv => if nv ≤ 0 then none else some nv

/-- Accumulator of the transaction loop: `total_shares`, `total_cost`,
`uncalculated_amount`. -/
structure TxAcc where
  shares : ℚ
  cost : ℚ
  uncalc : ℚ
deriving DecidableEq

/-- One iteration of the transaction loop of
`calculate_fund_valuation_by_nav`: non-positive amounts are skipped,
unresolved transactions accumulate into `uncalculated_amount`, resolved
ones into shares and cost. -/
def processTx (nav : List (Date × ℚ)) (acc : TxAcc) (tx : Tx) : TxAcc :=
  if tx.amount ≤ 0 then acc
  else
    match resolveTxNav nav tx with
    | none => { acc with uncalc := acc.uncalc + tx.amount }
    | some nv =>
      { acc with shares := acc.shares + tx.amount / nv,
                 cost := acc.cost + tx.amount }

def processTxs (nav : List (Date × ℚ)) (txs : List Tx) : TxAcc :=
  txs.foldl (processTx nav) ⟨0, 0, 0⟩

/-- The numeric output fields of `calculate_fund_valuation_by_nav`
(administrative metadata — name, code, nav_date, day_change_pct,
calc_details — is passthrough and not modelled). -/
structure NavValuation where
  total_shares : ℚ
  avg_cost : ℚ
  market_value : ℚ
  profit : ℚ
  profit_pct : ℚ
  uncalculated_amount : ℚ
deriving DecidableEq

/-- Embeds `calculate_fund_valuation_by_nav` (valuation.py).  The
externally fetched current NAV and NAV history arrive as arguments; the
upstream `None` returns for a missing fund code / current NAV /
history / transactions are the leading guards. -/
def calculate_fund_valuation_by_nav (current_nav : ℚ)
    (nav_history : List (Date × ℚ)) (txs : List Tx) : Option NavValuation :=
  if current_nav ≤ 0 then none
  else if nav_history = [] then none
  else if txs = [] then none
  else
    let acc := processTxs nav_history txs
    if acc.shares ≤ 0 ∧ acc.uncalc ≤ 0 then none
    else
      let calculated := if 0 < acc.shares then acc.shares * current_nav else 0
      let market_value := calculated + acc.uncalc
      let profit := calculated - acc.cost
      let total_actual := acc.cost + acc.uncalc
      let profit_pct :=
        if 0 < total_actual then profit / total_actual * 100 else 0
      some {
        total_shares := roundDec 2 acc.shares
        avg_cost := if 0 < acc.shares then roundDec 4 (acc.cost / acc.shares)
          else 0
        market_value := roundDec 2 market_value
        profit := roundDec 2 profit
        profit_pct := roundDec 2 profit_pct
        uncalculated_amount := acc.uncalc }

/-- Share contribution of one transaction. -/
def txShares (nav : List (Date × ℚ)) (tx : Tx) : ℚ :=
  if tx.amount ≤ 0 then 0
  else
    match resolveTxNav nav tx with
    | none => 0
    | some nv => tx.amount / nv

/-- Cost contribution of one transaction. -/
def txCost (nav : List (Date × ℚ)) (tx : Tx) : ℚ :=
  if tx.amount ≤ 0 then 0
  else
    match resolveTxNav nav tx with
    | none => 0
    | some _ => tx.amount

/-- Unconfirmed (breakeven passthrough) contribution of one transaction. -/
def txUncalc (nav : List (Date × ℚ)) (tx : Tx) : ℚ :=
  if tx.amount ≤ 0 then 0
  else
    match resolveTxNav nav tx with
    | none => tx.amount
    | some _ => 0

theorem processTx_eq (nav : List (Date × ℚ)) (acc : TxAcc) (tx : Tx) :
    processTx nav acc tx =
      ⟨acc.shares + txShares nav tx, acc.cost + txCost nav tx,
        acc.uncalc + txUncalc nav tx⟩ := by
  cases acc with
  | mk s c u =>
    unfold processTx txShares txCost txUncalc
    by_cases ha : tx.amount ≤ 0
    · simp [ha]
    · simp only [ha, if_false]
      cases hr : resolveTxNav nav tx <;> simp [hr]

theorem foldl_processTx_eq (nav : List (Date × ℚ)) (txs : List Tx) :
    ∀ acc : TxAcc, txs.foldl (processTx nav) acc =
      ⟨acc.shares + (txs.map (txShares nav)).sum,
        acc.cost + (txs.map (txCost nav)).sum,
        acc.uncalc + (txs.map (txUncalc nav)).sum⟩ := by
  induction txs with
  | nil => intro acc; simp
  | cons tx rest ih =>
    intro acc
    rw [List.foldl_cons, ih (processTx nav acc tx), processTx_eq]
    simp only [List.map_cons, List.sum_cons, TxAcc.mk.injEq]
    refine ⟨by ring, by ring, by ring⟩

theorem processTxs_eq (nav : List (Date × ℚ)) (txs : List Tx) :
    processTxs nav txs =
      ⟨(txs.map (txShares nav)).sum, (txs.map (txCost nav)).sum,
        (txs.map (txUncalc nav)).sum⟩ := by
  rw [processTxs, foldl_processTx_eq]
  simp

theorem resolveTxNav_pos {nav : List (Date × ℚ)} {tx : Tx} {nv : ℚ}
    (h : resolveTxNav nav tx = some nv) : 0 < nv := by
  rw [resolveTxNav] at h
  cases hp : parse_order_datetime tx.date with
  | none => simp [hp] at h
  | some t =>
    simp only [hp] at h
    cases hc : get_nav_confirm_date t nav with
    | none => simp [hc] at h
    | some cd =>
      simp only [hc] at h
      cases hn : get_nav_on_date nav cd with
      | none => simp [hn] at h
      | some v =>
        simp only [hn] at h
        by_cases hv : v ≤ 0
        · rw [if_pos hv] at h
          exact Option.noConfusion h
        · rw [if_neg hv] at h
          injection h with h2
          rw [← h2]
          exact lt_of_not_le hv

theorem txShares_nonneg (nav : List (Date × ℚ)) (tx : Tx) :
    0 ≤ txShares nav tx := by
  unfold txShares
  by_cases ha : tx.amount ≤ 0
  · simp [ha]
  · simp only [ha, if_false]
    cases hr : resolveTxNav nav tx with
    | none => exact le_refl 0
    | some nv =>
      have hnv := resolveTxNav_pos hr
      have : 0 < tx.amount := lt_of_not_le ha
      positivity

theorem sum_txShares_nonneg (nav : List (Date × ℚ)) (txs : List Tx) :
    0 ≤ (txs.map (txShares nav)).sum := by
  induction txs with
  | nil => simp
  | cons tx rest ih =>
    simp only [List.map_cons, List.sum_cons]
    have := txShares_nonneg nav tx
    linarith

/-- Claim C2: in the NAV-based valuation, each positive-amount buy that
cannot be resolved to a confirming NAV contributes its exact amount to the
unconfirmed pool (and nothing to shares or cost); the returned fields
satisfy `market_value = shares·nav + unconfirmed`,
`profit = shares·nav − cost`, and
`profit_pct = profit / (cost + unconfirmed) · 100` (0 on a zero
denominator), up to the output rounding. -/
theorem claim_C2_breakeven_passthrough (current_nav : ℚ)
    (nav : List (Date × ℚ)) (txs : List Tx) (r : NavValuation)
    (hr : calculate_fund_valuation_by_nav current_nav nav txs = some r) :
    (∀ tx ∈ txs, 0 < tx.amount → resolveTxNav nav tx = none →
      txShares nav tx = 0 ∧ txCost nav tx = 0 ∧ txUncalc nav tx = tx.amount)
  ∧ (processTxs nav txs).shares = (txs.map (txShares nav)).sum
  ∧ (processTxs nav txs).cost = (txs.map (txCost nav)).sum
  ∧ (processTxs nav txs).uncalc = (txs.map (txUncalc nav)).sum
  ∧ r.market_value = roundDec 2
      ((processTxs nav txs).shares * current_nav + (processTxs nav txs).uncalc)
  ∧ r.profit = roundDec 2
      ((processTxs nav txs).shares * current_nav - (processTxs nav txs).cost)
  ∧ r.profit_pct = roundDec 2
      (if 0 < (processTxs nav txs).cost + (processTxs nav txs).uncalc then
        ((processTxs nav txs).shares * current_nav -
          (processTxs nav txs).cost) /
          ((processTxs nav txs).cost + (processTxs nav txs).uncalc) * 100
      else 0) := by
  have hunres : ∀ tx ∈ txs, 0 < tx.amount → resolveTxNav nav tx = none →
      txShares nav tx = 0 ∧ txCost nav tx = 0 ∧
        txUncalc nav tx = tx.amount := by
    intro tx _ hpos hnone
    have ha : ¬ tx.amount ≤ 0 := not_le.mpr hpos
    refine ⟨?_, ?_, ?_⟩ <;> simp [txShares, txCost, txUncalc, ha, hnone]
  have hsh : 0 ≤ (processTxs nav txs).shares := by
    rw [processTxs_eq]
    exact sum_txShares_nonneg nav txs
  have hcalc : (if 0 < (processTxs nav txs).shares then
      (processTxs nav txs).shares * current_nav else 0) =
      (processTxs nav txs).shares * current_nav := by
    by_cases h : 0 < (processTxs nav txs).shares
    · rw [if_pos h]
    · rw [if_neg h]
      have : (processTxs nav txs).shares = 0 := le_antisymm (not_lt.mp h) hsh
      rw [this, zero_mul]
  unfold calculate_fund_valuation_by_nav at hr
  by_cases h1 : current_nav ≤ 0
  · rw [if_pos h1] at hr; exact Option.noConfusion hr
  rw [if_neg h1] at hr
  by_cases h2 : nav = []
  · rw [if_pos h2] at hr; exact Option.noConfusion hr
  rw [if_neg h2] at hr
  by_cases h3 : txs = []
  · rw [if_pos h3] at hr; exact Option.noConfusion hr
  rw [if_neg h3] at hr
  simp only [] at hr
  by_cases h4 : (processTxs nav txs).shares ≤ 0 ∧
      (processTxs nav txs).uncalc ≤ 0
  · rw [if_pos h4] at hr; exact Option.noConfusion hr
  rw [if_neg h4] at hr
  injection hr with hr2
  have hrec := hr2.symm
  refine ⟨hunres, ?_, ?_, ?_, ?_, ?_, ?_⟩
  · rw [processTxs_eq]
  · rw [processTxs_eq]
  · rw [processTxs_eq]
  · rw [hrec]
    simp only []
    rw [hcalc]
  · rw [hrec]
    simp only []
    rw [hcalc]
  · rw [hrec]
    simp only []
    rw [hcalc]

/-- The end-to-end scenario series of the specification plus an
unconfirmable order placed after the last NAV date. -/
def navHistW : List (Date × ℚ) :=
  [(⟨2024, 1, 2⟩, 1), (⟨2024, 1, 3⟩, 21 / 20)]

def txsW : List Tx :=
  [⟨String.mk ['2', '0', '2', '4', '-', '0', '1', '-', '0', '2', ' ',
      '1', '0', ':', '0', '0'], 1000⟩,
    ⟨String.mk ['2', '0', '2', '4', '-', '0', '1', '-', '0', '6'], 500⟩]

def navValW : NavValuation :=
  ⟨1000, 1, 1600, 100, 667 / 100, 500⟩

theorem claim_C2_breakeven_passthrough_witness :
    calculate_fund_valuation_by_nav (11 / 10) navHistW txsW = some navValW
  ∧ navValW.market_value = roundDec 2
      ((processTxs navHistW txsW).shares * (11 / 10) +
        (processTxs navHistW txsW).uncalc)
  ∧ navValW.profit = roundDec 2
      ((processTxs navHistW txsW).shares * (11 / 10) -
        (processTxs navHistW txsW).cost) := by
  have hcalc : calculate_fund_valuation_by_nav (11 / 10) navHistW txsW =
      some navValW := by with_unfolding_all rfl
  have h := claim_C2_breakeven_passthrough (11 / 10) navHistW txsW navValW
    hcalc
  exact ⟨hcalc, h.2.2.2.2.1, h.2.2.2.2.2.1⟩

/-! ### Index-tracking fallback valuation
(`calculate_fund_valuation_by_index`) -/

theorem foldMaxEntry_mem (e : Date × ℚ) (l : List (Date × ℚ)) :
    foldMaxEntry e l ∈ e :: l := by
  induction l generalizing e with
  | nil => simp [foldMaxEntry]
  | cons b t ih =>
    have hstep : foldMaxEntry e (b :: t) =
        foldMaxEntry (if dateLt e.1 b.1 then b else e) t := by
      simp [foldMaxEntry, List.foldl_cons]
    rw [hstep]
    rcases List.mem_cons.mp (ih (if dateLt e.1 b.1 then b else e)) with h | h
    · rw [h]
      by_cases hb : dateLt e.1 b.1 = true
      · simp [hb]
      · simp only [Bool.not_eq_true] at hb
        simp [hb]
    · simp [h]

theorem foldMaxEntry_max (e : Date × ℚ) (l : List (Date × ℚ)) :
    ∀ a ∈ e :: l, dateLt (foldMaxEntry e l).1 a.1 = false := by
  induction l generalizing e with
  | nil =>
    intro a ha
    simp only [List.mem_cons, List.not_mem_nil, or_false] at ha
    subst ha
    simp [foldMaxEntry, dateLt_irrefl]
  | cons b t ih =>
    intro a ha
    have hstep : foldMaxEntry e (b :: t) =
        foldMaxEntry (if dateLt e.1 b.1 then b else e) t := by
      simp [foldMaxEntry, List.foldl_cons]
    rw [hstep]
    rcases List.mem_cons.mp ha with rfl | ha2
    · -- a = e
      by_cases hb : dateLt a.1 b.1 = true
      · simp only [hb, if_true]
        by_contra hcon
        simp only [Bool.not_eq_false] at hcon
        have hbr : dateLt (foldMaxEntry b t).1 b.1 = false :=
          ih b b (List.mem_cons_self b t)
        have : dateLt (foldMaxEntry b t).1 b.1 = true := dateLt_trans hcon hb
        rw [this] at hbr
        simp at hbr
      · simp only [Bool.not_eq_true] at hb
        simp [hb]
        exact ih a a (List.mem_cons_self a t)
    · rcases List.mem_cons.mp ha2 with rfl | ha3
      · -- a = b
        by_cases hb : dateLt e.1 a.1 = true
        · simp only [hb, if_true]
          exact ih a a (List.mem_cons_self a t)
        · simp only [Bool.not_eq_true] at hb
          simp only [hb, Bool.false_eq_true, if_false]
          by_contra hcon
          simp only [Bool.not_eq_false] at hcon
          have her : dateLt (foldMaxEntry e t).1 e.1 = false :=
            ih e e (List.mem_cons_self e t)
          by_cases hdb : dateLt a.1 e.1 = true
          · have : dateLt (foldMaxEntry e t).1 e.1 = true :=
              dateLt_trans hcon hdb
            rw [this] at her
            simp at her
          · simp only [Bool.not_eq_true] at hdb
            have heq : e.1 = a.1 := dateLt_total hb hdb
            rw [← heq] at hcon
            rw [hcon] at her
            simp at her
      · -- a ∈ t
        by_cases hb : dateLt e.1 b.1 = true
        · simp only [hb, if_true]
          exact ih b a (List.mem_cons_of_mem b ha3)
        · simp only [Bool.not_eq_true] at hb
          simp only [hb, Bool.false_eq_true, if_false]
          exact ih e a (List.mem_cons_of_mem e ha3)

theorem foldMinEntry_mem (e : Date × ℚ) (l : List (Date × ℚ)) :
    foldMinEntry e l ∈ e :: l := by
  induction l generalizing e with
  | nil => simp [foldMinEntry]
  | cons b t ih =>
    have hstep : foldMinEntry e (b :: t) =
        foldMinEntry (if dateLt b.1 e.1 then b else e) t := by
      simp [foldMinEntry, List.foldl_cons]
    rw [hstep]
    rcases List.mem_cons.mp (ih (if dateLt b.1 e.1 then b else e)) with h | h
    · rw [h]
      by_cases hb : dateLt b.1 e.1 = true
      · simp [hb]
      · simp only [Bool.not_eq_true] at hb
        simp [hb]
    · simp [h]

theorem foldMinEntry_min (e : Date × ℚ) (l : List (Date × ℚ)) :
    ∀ a ∈ e :: l, dateLt a.1 (foldMinEntry e l).1 = false := by
  induction l generalizing e with
  | nil =>
    intro a ha
    simp only [List.mem_cons, List.not_mem_nil, or_false] at ha
    subst ha
    simp [foldMinEntry, dateLt_irrefl]
  | cons b t ih =>
    intro a ha
    have hstep : foldMinEntry e (b :: t) =
        foldMinEntry (if dateLt b.1 e.1 then b else e) t := by
      simp [foldMinEntry, List.foldl_cons]
    rw [hstep]
    rcases List.mem_cons.mp ha with rfl | ha2
    · -- a = e
      by_cases hb : dateLt b.1 a.1 = true
      · simp only [hb, if_true]
        by_contra hcon
        simp only [Bool.not_eq_false] at hcon
        have hbr : dateLt b.1 (foldMinEntry b t).1 = false :=
          ih b b (List.mem_cons_self b t)
        have : dateLt b.1 (foldMinEntry b t).1 = true := dateLt_trans hb hcon
        rw [this] at hbr
        simp at hbr
      · simp only [Bool.not_eq_true] at hb
        simp [hb]
        exact ih a a (List.mem_cons_self a t)
    · rcases List.mem_cons.mp ha2 with rfl | ha3
      · -- a = b
        by_cases hb : dateLt a.1 e.1 = true
        · simp only [hb, if_true]
          exact ih a a (List.mem_cons_self a t)
        · simp only [Bool.not_eq_true] at hb
          simp only [hb, Bool.false_eq_true, if_false]
          by_contra hcon
          simp only [Bool.not_eq_false] at hcon
          have her : dateLt e.1 (foldMinEntry e t).1 = false :=
            ih e e (List.mem_cons_self e t)
          by_cases hdb : dateLt e.1 a.1 = true
          · have : dateLt e.1 (foldMinEntry e t).1 = true :=
              dateLt_trans hdb hcon
            rw [this] at her
            simp at her
          · simp only [Bool.not_eq_true] at hdb
            have heq : e.1 = a.1 := dateLt_total hdb hb
            rw [← heq] at hcon
            rw [hcon] at her
            simp at her
      · -- a ∈ t
        by_cases hb : dateLt b.1 e.1 = true
        · simp only [hb, if_true]
          exact ih b a (List.mem_cons_of_mem b ha3)
        · simp only [Bool.not_eq_true] at hb
          simp only [hb, Bool.false_eq_true, if_false]
          exact ih e a (List.mem_cons_of_mem e ha3)

/-- Embeds the per-transaction body of the loop in
`calculate_fund_valuation_by_index` (valuation.py): unparseable dates and
missing (or falsy, i.e. zero) buy-day index values pass the amount through
at breakeven; otherwise
`market_value = amount * (1 + index_change_pct * tracking)` with
`index_change_pct = (today_value - buy_value) / buy_value`.  (`tracking`
is the source's tracking coefficient from the fund→index mapping.) -/
def txIndexMarketValue (idx : List (Date × ℚ)) (today_value : ℚ)
    (tracking : ℚ) (tx : Tx) : ℚ :=
  match parse_order_date tx.date with
  | none => tx.amount
  | some t =>
    match get_index_value_on_date idx t.date with
    | none => tx.amount
    | some bv =>
      if bv = 0 then tx.amount
      else tx.amount * (1 + (today_value - bv) / bv * tracking)

/-- Counterexample to claim C6 as stated: for a parseable transaction
date (2024-01-05) and a non-empty index history whose only row is the
strictly later day 2024-01-10, the lookup still produces that later close
— there is no row on the transaction date nor on any prior trading day,
so the value used is not "the closing value on the transaction date or
the nearest prior trading day present in the series". -/
theorem claim_C6_counterexample :
    parse_order_date (String.mk
        ['2', '0', '2', '4', '-', '0', '1', '-', '0', '5']) =
      some ⟨⟨2024, 1, 5⟩, 0, 0, 0⟩
  ∧ get_index_value_on_date [(⟨2024, 1, 10⟩, 100)] ⟨2024, 1, 5⟩ = some 100
  ∧ ¬ ∃ e ∈ [(⟨2024, 1, 10⟩, (100 : ℚ))], dateLt ⟨2024, 1, 5⟩ e.1 = false := by
  refine ⟨by decide, by with_unfolding_all rfl, ?_⟩
  rintro ⟨e, he, hlt⟩
  simp only [List.mem_singleton] at he
  subst he
  simp [dateLt] at hlt

/-- Claim C6 (amended): the buy-date index value is the close on the
transaction date when present, else the close on the nearest prior
trading day of the series, else — when the transaction date precedes the
whole series — the close of the series' earliest row; and for a resolved
non-zero buy value the per-transaction estimate is
`amount * (1 + ((today − buy)/buy) * tracking)`. -/
theorem claim_C6_index_lookup (idx : List (Date × ℚ)) :
    (∀ d : Date,
      ((∃ e ∈ idx, dateLt d e.1 = false) →
        ∃ e ∈ idx, get_index_value_on_date idx d = some e.2 ∧
          dateLt d e.1 = false ∧
          ∀ g ∈ idx, dateLt d g.1 = false → dateLt e.1 g.1 = false)
    ∧ ((idx ≠ [] ∧ ∀ e ∈ idx, dateLt d e.1 = true) →
        ∃ e ∈ idx, get_index_value_on_date idx d = some e.2 ∧
          ∀ g ∈ idx, dateLt g.1 e.1 = false))
  ∧ (∀ (today tracking : ℚ) (tx : Tx) (t : DateTime) (bv : ℚ),
      parse_order_date tx.date = some t →
      get_index_value_on_date idx t.date = some bv →
      bv ≠ 0 →
      txIndexMarketValue idx today tracking tx =
        tx.amount * (1 + (today - bv) / bv * tracking)) := by
  constructor
  · intro d
    constructor
    · intro hex
      cases hf : idx.filter (fun e => ! dateLt d e.1) with
      | nil =>
        obtain ⟨e, he, hle⟩ := hex
        have : e ∈ idx.filter (fun e => ! dateLt d e.1) :=
          List.mem_filter.mpr ⟨he, by simp [hle]⟩
        rw [hf] at this
        exact absurd this (List.not_mem_nil e)
      | cons f t =>
        have hres : get_index_value_on_date idx d =
            some (foldMaxEntry f t).2 := by
          unfold get_index_value_on_date
          rw [hf]
        have hmem : foldMaxEntry f t ∈ idx.filter (fun e => ! dateLt d e.1) := by
          rw [hf]
          exact foldMaxEntry_mem f t
        have hmem2 := List.mem_filter.mp hmem
        refine ⟨foldMaxEntry f t, hmem2.1, hres, ?_, ?_⟩
        · have := hmem2.2
          simpa using this
        · intro g hg hgle
          have hgf : g ∈ idx.filter (fun e => ! dateLt d e.1) :=
            List.mem_filter.mpr ⟨hg, by simp [hgle]⟩
          rw [hf] at hgf
          exact foldMaxEntry_max f t g hgf
    · rintro ⟨hne, hall⟩
      cases hf : idx.filter (fun e => ! dateLt d e.1) with
      | cons f t =>
        have hmem : f ∈ idx.filter (fun e => ! dateLt d e.1) := by
          rw [hf]
          exact List.mem_cons_self f t
        have hmem2 := List.mem_filter.mp hmem
        have := hall f hmem2.1
        have h2 := hmem2.2
        rw [this] at h2
        simp at h2
      | nil =>
        cases hidx : idx with
        | nil => exact absurd hidx hne
        | cons g t2 =>
          subst hidx
          have hres : get_index_value_on_date (g :: t2) d =
              some (foldMinEntry g t2).2 := by
            unfold get_index_value_on_date
            rw [hf]
          refine ⟨foldMinEntry g t2, foldMinEntry_mem g t2, hres, ?_⟩
          exact foldMinEntry_min g t2
  · intro today tracking tx t bv hp hv hbv
    unfold txIndexMarketValue
    rw [hp]
    simp only []
    rw [hv]
    simp only [hbv, if_false]

/-- A two-day index history for the witness. -/
def idxHistW : List (Date × ℚ) :=
  [(⟨2024, 1, 2⟩, 100), (⟨2024, 1, 3⟩, 110)]

theorem claim_C6_index_lookup_witness :
    (∃ e ∈ idxHistW, get_index_value_on_date idxHistW ⟨2024, 1, 4⟩ =
        some e.2 ∧ dateLt ⟨2024, 1, 4⟩ e.1 = false ∧
        ∀ g ∈ idxHistW, dateLt ⟨2024, 1, 4⟩ g.1 = false →
          dateLt e.1 g.1 = false)
  ∧ txIndexMarketValue idxHistW 120 (95 / 100)
      ⟨String.mk ['2', '0', '2', '4', '/', '0', '1', '/', '0', '3'], 1000⟩ =
      1000 * (1 + (120 - 110) / 110 * (95 / 100)) := by
  constructor
  · exact ((claim_C6_index_lookup idxHistW).1 ⟨2024, 1, 4⟩).1
      ⟨(⟨2024, 1, 3⟩, 110), by decide, by decide⟩
  · exact (claim_C6_index_lookup idxHistW).2 120 (95 / 100)
      ⟨String.mk ['2', '0', '2', '4', '/', '0', '1', '/', '0', '3'], 1000⟩
      ⟨⟨2024, 1, 3⟩, 0, 0, 0⟩ 110 (by decide) (by with_unfolding_all rfl)
      (by norm_num)

/-! ### Valuation percentiles (`calculate_percentile`,
`analyze_index_valuation`, src/technical.py) -/

/-- Embeds `calculate_percentile` (technical.py): `None` for a missing
current value or an empty history (before or after dropping `None`
entries; the float-NaN drop has no ℚ counterpart and is absorbed by the
`Option` filter), else the share of history strictly below the current
value, as a percentage rounded to one decimal. -/
def calculate_percentile (current : Option ℚ) (history : List (Option ℚ)) :
    Option ℚ :=
  if history = [] then none
  else
    match current with
    | none => none
    | some c =>
      let h := history.filterMap id
      if h = [] then none
      else some (roundDec 1
        (((h.filter (fun x => decide (x < c))).length : ℚ) /
          (h.length : ℚ) * 100))

theorem rat_floor_le (q : ℚ) : (q.floor : ℚ) ≤ q :=
  Rat.le_floor.mp (le_refl q.floor)

theorem rat_lt_floor_add_one (q : ℚ) : q < q.floor + 1 := by
  by_contra h
  push_neg at h
  have h2 : q.floor + 1 ≤ q.floor := Rat.le_floor.mpr (by push_cast; linarith)
  omega

theorem roundHalfEven_le_of_lt {q : ℚ} {z : ℤ} (h : q < (z : ℚ) + 1 / 2) :
    roundHalfEven q ≤ z := by
  have hfl : (q.floor : ℚ) ≤ q := rat_floor_le q
  have hle : q.floor ≤ z := by
    by_contra hc
    push_neg at hc
    have h2 : ((z : ℚ) + 1 ≤ (q.floor : ℚ)) := by exact_mod_cast hc
    linarith
  simp only [roundHalfEven]
  split_ifs with h1 h2 h3
  · exact hle
  · have hge : 1 / 2 ≤ q - (q.floor : ℚ) := le_of_not_lt h1
    have hflz : (q.floor : ℚ) < (z : ℚ) := by linarith
    have hzlt : q.floor < z := by exact_mod_cast hflz
    omega
  · exact hle
  · have hge : 1 / 2 ≤ q - (q.floor : ℚ) := le_of_not_lt h1
    have hflz : (q.floor : ℚ) < (z : ℚ) := by linarith
    have hzlt : q.floor < z := by exact_mod_cast hflz
    omega

/-- The general evaluation of `calculate_percentile` on a present current
value and a history surviving the `None` drop (shared helper). -/
theorem calculate_percentile_eq (c : ℚ) (history : List (Option ℚ))
    (hne : history.filterMap id ≠ []) :
    calculate_percentile (some c) history =
      some (roundDec 1
        ((((history.filterMap id).filter
            (fun x => decide (x < c))).length : ℚ) /
          ((history.filterMap id).length : ℚ) * 100)) := by
  have hh : history ≠ [] := by
    intro h0
    apply hne
    rw [h0]
    rfl
  unfold calculate_percentile
  rw [if_neg hh]
  simp only [if_neg hne]

/-- Counterexample history: 2001 distinct values 0, 1, ..., 2000. -/
def percentileBigHist : List (Option ℚ) :=
  (List.range 2001).map (fun i : ℕ => some (i : ℚ))

theorem percentileBigHist_filterMap :
    percentileBigHist.filterMap id =
      (List.range 2001).map (fun i : ℕ => (i : ℚ)) := by
  unfold percentileBigHist
  rw [List.filterMap_map]
  have h : (id ∘ fun i : ℕ => some ((i : ℚ))) =
      (some ∘ fun i : ℕ => (i : ℚ)) := rfl
  rw [h, List.filterMap_eq_map]

theorem range_map_cast_filter_lt (n : ℕ) :
    (((List.range (n + 1)).map (fun i : ℕ => (i : ℚ))).filter
      (fun x => decide (x < (n : ℚ)))).length = n := by
  rw [List.range_succ, List.map_append, List.filter_append]
  have h1 : ((List.range n).map (fun i : ℕ => (i : ℚ))).filter
      (fun x => decide (x < (n : ℚ))) =
      (List.range n).map (fun i : ℕ => (i : ℚ)) := by
    rw [List.filter_eq_self]
    intro a ha
    rw [List.mem_map] at ha
    obtain ⟨i, hi, rfl⟩ := ha
    rw [List.mem_range] at hi
    simp only [decide_eq_true_eq]
    exact_mod_cast hi
  have h2 : (([n].map (fun i : ℕ => (i : ℚ))).filter
      (fun x => decide (x < (n : ℚ)))) = [] := by
    simp
  rw [h1, h2, List.append_nil, List.length_map, List.length_range]

/-- Counterexample to claim C7 as stated: on a history of 2001 distinct
values with the current value equal to its maximum, the one-decimal
rounding turns 100·2000/2001 = 99.95002... into exactly 100, so the
result is 100 after all. -/
theorem claim_C7_counterexample :
    calculate_percentile (some 2000) percentileBigHist = some 100
  ∧ (percentileBigHist.filterMap id).Nodup
  ∧ (2000 : ℚ) ∈ percentileBigHist.filterMap id
  ∧ (∀ x ∈ percentileBigHist.filterMap id, x ≤ 2000) := by
  have hfm := percentileBigHist_filterMap
  have hne : percentileBigHist.filterMap id ≠ [] := by
    rw [hfm]
    intro h0
    have := congrArg List.length h0
    simp only [List.length_map, List.length_range, List.length_nil] at this
    omega
  refine ⟨?_, ?_, ?_, ?_⟩
  · rw [calculate_percentile_eq 2000 percentileBigHist hne, hfm]
    have h2000 : ((2000 : ℕ) : ℚ) = (2000 : ℚ) := by norm_num
    have hfilt := range_map_cast_filter_lt 2000
    rw [h2000] at hfilt
    rw [hfilt]
    simp only [List.length_map, List.length_range]
    have hval : ((2000 : ℕ) : ℚ) / ((2001 : ℕ) : ℚ) * 100 =
        2000000 / 2001 / 10 := by
      push_cast
      ring
    rw [hval]
    have hq : (2000000 : ℚ) / 2001 / 10 * 10 ^ 1 = 2000000 / 2001 := by
      ring_nf
    unfold roundDec
    rw [hq]
    have hfl : ((2000000 : ℚ) / 2001).floor = 999 := by
      have hge : (999 : ℤ) ≤ ((2000000 : ℚ) / 2001).floor := by
        rw [Rat.le_floor]
        norm_num
      have hlt : ((2000000 : ℚ) / 2001).floor < 1000 := by
        by_contra hcon
        push_neg at hcon
        have := Rat.le_floor.mp hcon
        norm_num at this
      omega
    unfold roundHalfEven
    rw [hfl]
    have hr1 : ¬ ((2000000 : ℚ) / 2001 - ((999 : ℤ) : ℚ) < 1 / 2) := by
      norm_num
    have hr2 : (1 : ℚ) / 2 < (2000000 : ℚ) / 2001 - ((999 : ℤ) : ℚ) := by
      norm_num
    rw [if_neg hr1, if_pos hr2]
    norm_num
  · rw [hfm]
    exact (List.nodup_range 2001).map (fun a b hab => Nat.cast_injective hab)
  · rw [hfm, List.mem_map]
    exact ⟨2000, by simp, by norm_num⟩
  · intro x hx
    rw [hfm] at hx
    rw [List.mem_map] at hx
    obtain ⟨i, hi, rfl⟩ := hx
    rw [List.mem_range] at hi
    exact_mod_cast Nat.lt_succ_iff.mp hi

/-- Claim C7 (amended): `calculate_percentile` returns the share of
history (after dropping `None` entries) strictly below the current value,
times 100, rounded to one decimal; when the current value is the maximum
of a history of n distinct values this equals `round1(100·(n−1)/n)` —
which is strictly below 100 for n ≤ 1999, but rounds up to exactly 100
for larger n. -/
theorem claim_C7_percentile_strict (current : ℚ)
    (history : List (Option ℚ)) :
    (history.filterMap id ≠ [] →
      calculate_percentile (some current) history =
        some (roundDec 1
          ((((history.filterMap id).filter
              (fun x => decide (x < current))).length : ℚ) /
            ((history.filterMap id).length : ℚ) * 100)))
  ∧ ((history.filterMap id).Nodup → current ∈ history.filterMap id →
      (∀ x ∈ history.filterMap id, x ≤ current) →
      (((history.filterMap id).filter
          (fun x => decide (x < current))).length =
        (history.filterMap id).length - 1)
      ∧ ((history.filterMap id).length ≤ 1999 →
          ∀ q, calculate_percentile (some current) history = some q →
            q < 100)) := by
  have hmain := fun hne => calculate_percentile_eq current history hne
  refine ⟨hmain, ?_⟩
  intro hnd hmem hmax
  have hne : history.filterMap id ≠ [] := by
    intro h0
    rw [h0] at hmem
    exact List.not_mem_nil current hmem
  have hcount : ((history.filterMap id).filter
      (fun x => decide (x < current))).length =
      (history.filterMap id).length - 1 := by
    set h := history.filterMap id with hdef
    have hfc : h.filter (fun x => decide (x < current)) =
        h.filter (fun x => ! (x == current)) := by
      apply List.filter_congr
      intro x hx
      have hle := hmax x hx
      by_cases hxe : x = current
      · simp [hxe]
      · simp [lt_of_le_of_ne hle hxe, hxe]
    rw [hfc]
    have hsplit : h.length = h.countP (fun x => x == current) +
        h.countP (fun x => ! (x == current)) := by
      simpa using List.length_eq_countP_add_countP (fun x => x == current)
        (l := h)
    have hcnt : h.countP (fun x => x == current) = 1 := by
      have := List.count_eq_one_of_mem hnd hmem
      simpa [List.count] using this
    rw [← List.countP_eq_length_filter]
    omega
  refine ⟨hcount, ?_⟩
  intro hn q hq
  rw [hmain hne] at hq
  injection hq with hq2
  set n := (history.filterMap id).length with hndef
  have hn1 : 1 ≤ n := by
    rw [hndef]
    cases hc : history.filterMap id with
    | nil => exact absurd hc hne
    | cons a l => simp
  rw [hcount] at hq2
  -- the pre-rounding value is at most 100·1998/1999 < 99.95
  have hval : ((n - 1 : ℕ) : ℚ) / (n : ℚ) * 100 < 999 / 10 + 1 / 20 := by
    have hnq : (1 : ℚ) ≤ (n : ℚ) := by exact_mod_cast hn1
    have hcast : ((n - 1 : ℕ) : ℚ) = (n : ℚ) - 1 := by
      have : (1 : ℕ) ≤ n := hn1
      push_cast [this]
      ring
    rw [hcast]
    rw [div_mul_eq_mul_div, div_lt_iff₀ (by linarith)]
    have hnle : (n : ℚ) ≤ 1999 := by exact_mod_cast hn
    nlinarith
  rw [← hq2]
  unfold roundDec
  have hround : roundHalfEven (((n - 1 : ℕ) : ℚ) / (n : ℚ) * 100 * 10 ^ 1) ≤
      999 := by
    apply roundHalfEven_le_of_lt
    push_cast
    nlinarith [hval]
  have : (roundHalfEven (((n - 1 : ℕ) : ℚ) / (n : ℚ) * 100 * 10 ^ 1) : ℚ) ≤
      999 := by exact_mod_cast hround
  rw [div_lt_iff₀ (by norm_num : (0 : ℚ) < 10 ^ 1)]
  linarith

theorem claim_C7_percentile_strict_witness :
    calculate_percentile (some 3) [some 1, some 2, some 3] =
      some (roundDec 1 ((2 : ℚ) / 3 * 100))
  ∧ (∀ q, calculate_percentile (some 3) [some 1, some 2, some 3] = some q →
      q < 100) := by
  have h := claim_C7_percentile_strict 3 [some 1, some 2, some 3]
  have h1 := h.1 (by decide)
  have h2 := (h.2 (by decide) (by decide) (by decide)).2 (by decide)
  constructor
  · rw [h1]
    have hfl : (([some 1, some 2, some 3] :
        List (Option ℚ)).filterMap id).filter
        (fun x => decide (x < 3)) = [1, 2] := by with_unfolding_all rfl
    have hlen : (([some 1, some 2, some 3] :
        List (Option ℚ)).filterMap id).length = 3 := rfl
    rw [hfl, hlen]
    norm_num
  · exact h2

/-- Classification levels of `analyze_index_valuation` (低估 / 中等 /
高估 / 未知). -/
inductive ValLevel where
  | undervalued
  | fair
  | overvalued
  | unknown
deriving DecidableEq

/-- `Average PE-percentile and PB-percentile when both exist, else use
whichever exists` — the `avg_percentile` computation of
`analyze_index_valuation`. -/
def compositePercentile (a b : Option ℚ) : Option ℚ :=
  match a, b with
  | some x, some y => some ((x + y) / 2)
  | some x, none => some x
  | none, some y => some y
  | none, none => none

/-- Output of `analyze_index_valuation` (code/name passthrough fields
omitted). -/
structure IndexValuation where
  pe : Option ℚ
  pb : Option ℚ
  pe_percentile : Option ℚ
  pb_percentile : Option ℚ
  level : ValLevel
deriving DecidableEq

/-- Embeds `analyze_index_valuation` (technical.py).  The externally
fetched current PE/PB and their histories arrive as arguments; the
function is total — absence of data flows into the `unknown` level rather
than an exception.  Note the output `pe`/`pb` use Python truthiness:
`round(pe, 2) if pe else None`. -/
def analyze_index_valuation (pe pb : Option ℚ)
    (pe_history pb_history : List (Option ℚ)) : IndexValuation :=
  let pe_percentile := calculate_percentile pe pe_history
  let pb_percentile := calculate_percentile pb pb_history
  let avg_percentile := compositePercentile pe_percentile pb_percentile
  let level :=
    match avg_percentile with
    | some p =>
      if p ≤ 30 then ValLevel.undervalued
      else if 70 ≤ p then ValLevel.overvalued
      else ValLevel.fair
    | none => ValLevel.unknown
  { pe := match pe with
      | some v => if v ≠ 0 then some (roundDec 2 v) else none
      | none => none
    pb := match pb with
      | some v => if v ≠ 0 then some (roundDec 2 v) else none
      | none => none
    pe_percentile := pe_percentile
    pb_percentile := pb_percentile
    level := level }

/-- Claim C8: the composite percentile averages the PE and PB percentiles
when both exist and falls back to whichever exists; the level is
`undervalued` iff composite ≤ 30, `overvalued` iff composite ≥ 70, `fair`
strictly in between, and `unknown` exactly when no percentile exists —
and the (total) function returns normally in every case. -/
theorem claim_C8_valuation_classification (pe pb : Option ℚ)
    (peh pbh : List (Option ℚ)) :
    ((analyze_index_valuation pe pb peh pbh).pe_percentile =
      calculate_percentile pe peh)
  ∧ ((analyze_index_valuation pe pb peh pbh).pb_percentile =
      calculate_percentile pb pbh)
  ∧ (∀ a b : ℚ, compositePercentile (some a) (some b) = some ((a + b) / 2))
  ∧ (∀ a : ℚ, compositePercentile (some a) none = some a)
  ∧ (∀ b : ℚ, compositePercentile none (some b) = some b)
  ∧ ((analyze_index_valuation pe pb peh pbh).level = ValLevel.undervalued ↔
      ∃ p, compositePercentile (calculate_percentile pe peh)
        (calculate_percentile pb pbh) = some p ∧ p ≤ 30)
  ∧ ((analyze_index_valuation pe pb peh pbh).level = ValLevel.overvalued ↔
      ∃ p, compositePercentile (calculate_percentile pe peh)
        (calculate_percentile pb pbh) = some p ∧ 70 ≤ p)
  ∧ ((analyze_index_valuation pe pb peh pbh).level = ValLevel.fair ↔
      ∃ p, compositePercentile (calculate_percentile pe peh)
        (calculate_percentile pb pbh) = some p ∧ 30 < p ∧ p < 70)
  ∧ ((analyze_index_valuation pe pb peh pbh).level = ValLevel.unknown ↔
      compositePercentile (calculate_percentile pe peh)
        (calculate_percentile pb pbh) = none) := by
  have hlevel : (analyze_index_valuation pe pb peh pbh).level =
      (match compositePercentile (calculate_percentile pe peh)
          (calculate_percentile pb pbh) with
        | some p =>
          if p ≤ 30 then ValLevel.undervalued
          else if 70 ≤ p then ValLevel.overvalued
          else ValLevel.fair
        | none => ValLevel.unknown) := rfl
  refine ⟨rfl, rfl, fun a b => rfl, fun a => rfl, fun b => rfl, ?_, ?_, ?_, ?_⟩
  · rw [hlevel]
    cases hc : compositePercentile (calculate_percentile pe peh)
        (calculate_percentile pb pbh) with
    | none => simp
    | some p =>
      by_cases h1 : p ≤ 30
      · simp [h1]
      · by_cases h2 : (70 : ℚ) ≤ p
        · simp [h1, h2]
        · simp [h1, h2]
  · rw [hlevel]
    cases hc : compositePercentile (calculate_percentile pe peh)
        (calculate_percentile pb pbh) with
    | none => simp
    | some p =>
      by_cases h1 : p ≤ 30
      · have h70 : ¬ (70 : ℚ) ≤ p := by linarith
        simp [h1, h70]
      · by_cases h2 : (70 : ℚ) ≤ p
        · simp [h1, h2]
        · simp [h1, h2]
  · rw [hlevel]
    cases hc : compositePercentile (calculate_percentile pe peh)
        (calculate_percentile pb pbh) with
    | none => simp
    | some p =>
      by_cases h1 : p ≤ 30
      · simp only [h1, if_true]
        constructor
        · intro h
          exact absurd h (by decide)
        · rintro ⟨p2, hp2, hgt, hlt⟩
          injection hp2 with hp3
          subst hp3
          linarith
      · by_cases h2 : (70 : ℚ) ≤ p
        · simp only [h1, if_false, h2, if_true]
          constructor
          · intro h
            exact absurd h (by decide)
          · rintro ⟨p2, hp2, hgt, hlt⟩
            injection hp2 with hp3
            subst hp3
            linarith
        · simp only [h1, if_false, h2]
          constructor
          · intro _
            exact ⟨p, rfl, not_le.mp h1, not_le.mp h2⟩
          · intro _
            simp
  · rw [hlevel]
    cases hc : compositePercentile (calculate_percentile pe peh)
        (calculate_percentile pb pbh) with
    | none => simp
    | some p =>
      constructor
      · intro h
        simp only [] at h
        split_ifs at h
      · intro h
        exact Option.noConfusion h

/-! ### Smart trading signal (`generate_smart_signal`, src/technical.py)

The Chinese reason strings are abstracted to tagged values carrying the
interpolated numbers; `action_cn` and `suggestion` are presentation
strings functionally determined by the action and are omitted.  The
`changes` parameter of the source function is unused by its body and is
omitted.  Float thresholds (1.2, 0.8, 0.5) are read as exact rationals. -/

/-- One textual reason of the returned `reasons` list, with the numbers
interpolated into the source's f-string. -/
inductive Reason where
  | belowMA10Far (dist : ℚ)
  | belowMA10Mid (dist : ℚ)
  | belowMA10Slight (dist : ℚ)
  | farAboveMA10 (dist : ℚ)
  | aboveMA20
  | belowMA20 (dist : ℚ)
  | aboveMA60
  | slopeUp (s : ℚ)
  | slopeDown (s : ℚ)
  | daysBelowMany (n : ℕ)
  | daysBelowTwo
  | volumeBreakdown
  | volumePullback
  | rsiSevereOverbought (r : ℚ)
  | rsiOverbought (r : ℚ)
  | rsiSevereOversold (r : ℚ)
  | rsiOversold (r : ℚ)
  | rsiNeutralStable (r : ℚ)
  | breadthStrong (r : ℚ)
  | breadthWeak (r : ℚ)
  | bullPullback
  | insufficientData
deriving DecidableEq

/-- One score-modifying branch of the scoring sequence. -/
inductive RuleId where
  | ma10Far | ma10Mid | ma10Slight | ma10Overext
  | ma20Above | ma20Below
  | ma60Above | ma60Below
  | slopeUpStrong | slopeUpMild | slopeDownStrong | slopeDownMild
  | daysMany | daysTwo
  | volBreakdown | volPullback
  | rsiHigh80 | rsiHigh70 | rsiLow20 | rsiLow30 | rsiStable
  | breadthUp | breadthDown
  | bullPull
  | guardNoData
deriving DecidableEq

/-- Which score-modifying branches also append a textual reason.  Three
branches adjust scores silently: price below MA60, and the two mild
MA20-slope branches. -/
def ruleEmitsReason : RuleId → Bool
  | .ma60Below => false
  | .slopeUpMild => false
  | .slopeDownMild => false
  | _ => true

/-- The rule a textual reason belongs to. -/
def ruleOfReason : Reason → RuleId
  | .belowMA10Far _ => .ma10Far
  | .belowMA10Mid _ => .ma10Mid
  | .belowMA10Slight _ => .ma10Slight
  | .farAboveMA10 _ => .ma10Overext
  | .aboveMA20 => .ma20Above
  | .belowMA20 _ => .ma20Below
  | .aboveMA60 => .ma60Above
  | .slopeUp _ => .slopeUpStrong
  | .slopeDown _ => .slopeDownStrong
  | .daysBelowMany _ => .daysMany
  | .daysBelowTwo => .daysTwo
  | .volumeBreakdown => .volBreakdown
  | .volumePullback => .volPullback
  | .rsiSevereOverbought _ => .rsiHigh80
  | .rsiOverbought _ => .rsiHigh70
  | .rsiSevereOversold _ => .rsiLow20
  | .rsiOversold _ => .rsiLow30
  | .rsiNeutralStable _ => .rsiStable
  | .breadthStrong _ => .breadthUp
  | .breadthWeak _ => .breadthDown
  | .bullPullback => .bullPull
  | .insufficientData => .guardNoData

/-- The moving-average dict `{'ma5', 'ma10', 'ma20', 'ma60'}`. -/
structure MAs where
  ma5 : Option ℚ
  ma10 : Option ℚ
  ma20 : Option ℚ
  ma60 : Option ℚ
deriving DecidableEq

/-- Running state of the scoring sequence: buy score, sell score and the
reasons appended so far. -/
structure ScoreState where
  buy : ℤ
  sell : ℤ
  rs : List Reason
deriving DecidableEq

/-- Python truthiness of the `price < ma10 if ma10 else False` guard:
`ma10` truthy (not `None`, non-zero) and price strictly below it. -/
def ma10Below (price : ℚ) (ma10 : Option ℚ) : Bool :=
  match ma10 with
  | some m => decide (m ≠ 0) && decide (price < m)
  | none => false

/-- Block 1 of `generate_smart_signal`: MA10 proximity. -/
def step_ma10 (price : ℚ) (ma10 : Option ℚ) (st : ScoreState) : ScoreState :=
  match ma10 with
  | none => st
  | some m =>
    if m = 0 then st
    else
      let dist := (price - m) / m * 100
      if dist < -2 then ⟨st.buy, st.sell + 3, st.rs ++ [.belowMA10Far dist]⟩
      else if dist < -1 then
        ⟨st.buy, st.sell + 2, st.rs ++ [.belowMA10Mid dist]⟩
      else if dist < 0 then
        ⟨st.buy, st.sell + 1, st.rs ++ [.belowMA10Slight dist]⟩
      else if dist > 3 then
        ⟨st.buy, st.sell + 1, st.rs ++ [.farAboveMA10 dist]⟩
      else st

def fired_ma10 (price : ℚ) (ma10 : Option ℚ) : List RuleId :=
  match ma10 with
  | none => []
  | some m =>
    if m = 0 then []
    else
      let dist := (price - m) / m * 100
      if dist < -2 then [.ma10Far]
      else if dist < -1 then [.ma10Mid]
      else if dist < 0 then [.ma10Slight]
      else if dist > 3 then [.ma10Overext]
      else []

/-- Block 2: MA20 position. -/
def step_ma20 (price : ℚ) (ma20 : Option ℚ) (st : ScoreState) : ScoreState :=
  match ma20 with
  | none => st
  | some m =>
    if m = 0 then st
    else
      let dist := (price - m) / m * 100
      if price > m then ⟨st.buy + 2, st.sell, st.rs ++ [.aboveMA20]⟩
      else if dist < -2 then ⟨st.buy, st.sell + 2, st.rs ++ [.belowMA20 dist]⟩
      else st

def fired_ma20 (price : ℚ) (ma20 : Option ℚ) : List RuleId :=
  match ma20 with
  | none => []
  | some m =>
    if m = 0 then []
    else
      let dist := (price - m) / m * 100
      if price > m then [.ma20Above]
      else if dist < -2 then [.ma20Below]
      else []

/-- Block 3: MA60 position.  The below-MA60 branch adds to the sell score
without appending a reason. -/
def step_ma60 (price : ℚ) (ma60 : Option ℚ) (st : ScoreState) : ScoreState :=
  match ma60 with
  | none => st
  | some m =>
    if m = 0 then st
    else if price > m then ⟨st.buy + 1, st.sell, st.rs ++ [.aboveMA60]⟩
    else ⟨st.buy, st.sell + 1, st.rs⟩

def fired_ma60 (price : ℚ) (ma60 : Option ℚ) : List RuleId :=
  match ma60 with
  | none => []
  | some m =>
    if m = 0 then []
    else if price > m then [.ma60Above]
    else [.ma60Below]

/-- Block 4: MA20 slope.  The two mild branches adjust scores silently. -/
def step_slope (slope : Option ℚ) (st : ScoreState) : ScoreState :=
  match slope with
  | none => st
  | some sl =>
    if sl > 1 / 2 then ⟨st.buy + 2, st.sell, st.rs ++ [.slopeUp sl]⟩
    else if sl > 0 then ⟨st.buy + 1, st.sell, st.rs⟩
    else if sl < -(1 / 2) then ⟨st.buy, st.sell + 2, st.rs ++ [.slopeDown sl]⟩
    else if sl < 0 then ⟨st.buy, st.sell + 1, st.rs⟩
    else st

def fired_slope (slope : Option ℚ) : List RuleId :=
  match slope with
  | none => []
  | some sl =>
    if sl > 1 / 2 then [.slopeUpStrong]
    else if sl > 0 then [.slopeUpMild]
    else if sl < -(1 / 2) then [.slopeDownStrong]
    else if sl < 0 then [.slopeDownMild]
    else []

/-- Block 5: consecutive days below MA10. -/
def step_days (n : ℕ) (st : ScoreState) : ScoreState :=
  if n ≥ 3 then ⟨st.buy, st.sell + 2, st.rs ++ [.daysBelowMany n]⟩
  else if n = 2 then ⟨st.buy, st.sell + 1, st.rs ++ [.daysBelowTwo]⟩
  else st

def fired_days (n : ℕ) : List RuleId :=
  if n ≥ 3 then [.daysMany]
  else if n = 2 then [.daysTwo]
  else []

/-- Block 6: volume confirmation, evaluated only below MA10. -/
def step_volume (price : ℚ) (ma10 : Option ℚ) (vr : Option ℚ)
    (st : ScoreState) : ScoreState :=
  match vr with
  | none => st
  | some v =>
    if ma10Below price ma10 then
      if v > 120 then ⟨st.buy, st.sell + 2, st.rs ++ [.volumeBreakdown]⟩
      else if v < 80 then ⟨st.buy + 1, st.sell, st.rs ++ [.volumePullback]⟩
      else st
    else st

def fired_volume (price : ℚ) (ma10 : Option ℚ) (vr : Option ℚ) :
    List RuleId :=
  match vr with
  | none => []
  | some v =>
    if ma10Below price ma10 then
      if v > 120 then [.volBreakdown]
      else if v < 80 then [.volPullback]
      else []
    else []

/-- Block 7: RSI. -/
def step_rsi (price : ℚ) (ma10 : Option ℚ) (rsi : Option ℚ)
    (st : ScoreState) : ScoreState :=
  match rsi with
  | none => st
  | some r =>
    if r > 80 then ⟨st.buy, st.sell + 2, st.rs ++ [.rsiSevereOverbought r]⟩
    else if r > 70 then ⟨st.buy, st.sell + 1, st.rs ++ [.rsiOverbought r]⟩
    else if r < 20 then ⟨st.buy + 2, st.sell, st.rs ++ [.rsiSevereOversold r]⟩
    else if r < 30 then ⟨st.buy + 1, st.sell, st.rs ++ [.rsiOversold r]⟩
    else if 40 ≤ r ∧ r ≤ 60 then
      if ma10Below price ma10 then
        ⟨st.buy + 1, st.sell, st.rs ++ [.rsiNeutralStable r]⟩
      else st
    else st

def fired_rsi (price : ℚ) (ma10 : Option ℚ) (rsi : Option ℚ) :
    List RuleId :=
  match rsi with
  | none => []
  | some r =>
    if r > 80 then [.rsiHigh80]
    else if r > 70 then [.rsiHigh70]
    else if r < 20 then [.rsiLow20]
    else if r < 30 then [.rsiLow30]
    else if 40 ≤ r ∧ r ≤ 60 then
      if ma10Below price ma10 then [.rsiStable]
      else []
    else []

/-- Block 8: market breadth.  The outer `Option` is the dict's
truthiness, the inner one the presence of the `rise_ratio` key (absent
defaults to 1). -/
def step_breadth (mb : Option (Option ℚ)) (st : ScoreState) : ScoreState :=
  match mb with
  | none => st
  | some o =>
    let rise := o.getD 1
    if rise > 12 / 10 then ⟨st.buy + 1, st.sell, st.rs ++ [.breadthStrong rise]⟩
    else if rise < 8 / 10 then
      ⟨st.buy, st.sell + 1, st.rs ++ [.breadthWeak rise]⟩
    else st

def fired_breadth (mb : Option (Option ℚ)) : List RuleId :=
  match mb with
  | none => []
  | some o =>
    let rise := o.getD 1
    if rise > 12 / 10 then [.breadthUp]
    else if rise < 8 / 10 then [.breadthDown]
    else []

/-- Block 9: bull-market pullback override (buy +2 and sell −1). -/
def step_bull (price : ℚ) (ma10 ma20 slope : Option ℚ) (st : ScoreState) :
    ScoreState :=
  match ma10, ma20, slope with
  | some m10, some m20, some sl =>
    if m10 = 0 ∨ m20 = 0 then st
    else if price < m10 ∧ price > m20 ∧ sl > 0 then
      ⟨st.buy + 2, st.sell - 1, st.rs ++ [.bullPullback]⟩
    else st
  | _, _, _ => st

def fired_bull (price : ℚ) (ma10 ma20 slope : Option ℚ) : List RuleId :=
  match ma10, ma20, slope with
  | some m10, some m20, some sl =>
    if m10 = 0 ∨ m20 = 0 then []
    else if price < m10 ∧ price > m20 ∧ sl > 0 then [.bullPull]
    else []
  | _, _, _ => []

inductive Action where
  | buy | hold | watch | reduce | sell | unknown
deriving DecidableEq

structure Scores where
  buy_score : ℤ
  sell_score : ℤ
  net_score : ℤ
deriving DecidableEq

/-- Output of `generate_smart_signal` (the guard branch of the source
returns no `scores` key, hence the `Option`). -/
structure SmartSignal where
  action : Action
  confidence : ℕ
  reasons : List Reason
  scores : Option Scores
deriving DecidableEq

/-- Embeds `generate_smart_signal` (technical.py).  The guard
`if not mas or not price` maps to a missing/empty dict (`none`) or a
falsy (zero) price. -/
def generate_smart_signal (price : ℚ) (mas : Option MAs)
    (rsi volume_rel ma20_slope : Option ℚ) (days_below_ma10 : ℕ)
    (market_breadth : Option (Option ℚ)) : SmartSignal :=
  match mas with
  | none => ⟨.unknown, 0, [.insufficientData], none⟩
  | some m =>
    if price = 0 then ⟨.unknown, 0, [.insufficientData], none⟩
    else
      let st := step_bull price m.ma10 m.ma20 ma20_slope
        (step_breadth market_breadth
          (step_rsi price m.ma10 rsi
            (step_volume price m.ma10 volume_rel
              (step_days days_below_ma10
                (step_slope ma20_slope
                  (step_ma60 price m.ma60
                    (step_ma20 price m.ma20
                      (step_ma10 price m.ma10 ⟨0, 0, []⟩))))))))
      let net := st.buy - st.sell
      let action : Action :=
        if net ≥ 4 then .buy
        else if net ≥ 2 then .hold
        else if net ≥ 0 then .watch
        else if net ≥ -2 then .reduce
        else .sell
      ⟨action, min 5 (max 1 net.natAbs), st.rs.take 5,
        some ⟨st.buy, st.sell, net⟩⟩

/-- All score-modifying branches that fire on the given inputs, in
program order. -/
def firedRules (price : ℚ) (m : MAs) (rsi volume_rel ma20_slope : Option ℚ)
    (days_below_ma10 : ℕ) (market_breadth : Option (Option ℚ)) :
    List RuleId :=
  fired_ma10 price m.ma10 ++ fired_ma20 price m.ma20 ++
    fired_ma60 price m.ma60 ++ fired_slope ma20_slope ++
    fired_days days_below_ma10 ++ fired_volume price m.ma10 volume_rel ++
    fired_rsi price m.ma10 rsi ++ fired_breadth market_breadth ++
    fired_bull price m.ma10 m.ma20 ma20_slope

theorem step_ma10_reasons (price : ℚ) (ma10 : Option ℚ) (st : ScoreState) :
    (step_ma10 price ma10 st).rs.map ruleOfReason =
      st.rs.map ruleOfReason ++
        (fired_ma10 price ma10).filter ruleEmitsReason := by
  unfold step_ma10 fired_ma10
  cases ma10 with
  | none => simp
  | some m =>
    by_cases h0 : m = 0
    · simp [h0]
    · simp only [h0, if_false]
      split_ifs <;> simp [ruleOfReason, ruleEmitsReason]

theorem step_ma20_reasons (price : ℚ) (ma20 : Option ℚ) (st : ScoreState) :
    (step_ma20 price ma20 st).rs.map ruleOfReason =
      st.rs.map ruleOfReason ++
        (fired_ma20 price ma20).filter ruleEmitsReason := by
  unfold step_ma20 fired_ma20
  cases ma20 with
  | none => simp
  | some m =>
    by_cases h0 : m = 0
    · simp [h0]
    · simp only [h0, if_false]
      split_ifs <;> simp [ruleOfReason, ruleEmitsReason]

theorem step_ma60_reasons (price : ℚ) (ma60 : Option ℚ) (st : ScoreState) :
    (step_ma60 price ma60 st).rs.map ruleOfReason =
      st.rs.map ruleOfReason ++
        (fired_ma60 price ma60).filter ruleEmitsReason := by
  unfold step_ma60 fired_ma60
  cases ma60 with
  | none => simp
  | some m =>
    by_cases h0 : m = 0
    · simp [h0]
    · simp only [h0, if_false]
      split_ifs <;> simp [ruleOfReason, ruleEmitsReason]

theorem step_slope_reasons (slope : Option ℚ) (st : ScoreState) :
    (step_slope slope st).rs.map ruleOfReason =
      st.rs.map ruleOfReason ++
        (fired_slope slope).filter ruleEmitsReason := by
  cases slope with
  | none => simp [step_slope, fired_slope]
  | some sl =>
    simp only [step_slope, fired_slope]
    split_ifs <;> simp [ruleOfReason, ruleEmitsReason]

theorem step_days_reasons (n : ℕ) (st : ScoreState) :
    (step_days n st).rs.map ruleOfReason =
      st.rs.map ruleOfReason ++ (fired_days n).filter ruleEmitsReason := by
  unfold step_days fired_days
  split_ifs <;> simp [ruleOfReason, ruleEmitsReason]

theorem step_volume_reasons (price : ℚ) (ma10 vr : Option ℚ)
    (st : ScoreState) :
    (step_volume price ma10 vr st).rs.map ruleOfReason =
      st.rs.map ruleOfReason ++
        (fired_volume price ma10 vr).filter ruleEmitsReason := by
  cases vr with
  | none => simp [step_volume, fired_volume]
  | some v =>
    simp only [step_volume, fired_volume]
    split_ifs <;> simp [ruleOfReason, ruleEmitsReason]

theorem step_rsi_reasons (price : ℚ) (ma10 rsi : Option ℚ)
    (st : ScoreState) :
    (step_rsi price ma10 rsi st).rs.map ruleOfReason =
      st.rs.map ruleOfReason ++
        (fired_rsi price ma10 rsi).filter ruleEmitsReason := by
  cases rsi with
  | none => simp [step_rsi, fired_rsi]
  | some r =>
    simp only [step_rsi, fired_rsi]
    split_ifs <;> simp [ruleOfReason, ruleEmitsReason]

theorem step_breadth_reasons (mb : Option (Option ℚ)) (st : ScoreState) :
    (step_breadth mb st).rs.map ruleOfReason =
      st.rs.map ruleOfReason ++
        (fired_breadth mb).filter ruleEmitsReason := by
  cases mb with
  | none => simp [step_breadth, fired_breadth]
  | some o =>
    simp only [step_breadth, fired_breadth]
    split_ifs <;> simp [ruleOfReason, ruleEmitsReason]

theorem step_bull_reasons (price : ℚ) (ma10 ma20 slope : Option ℚ)
    (st : ScoreState) :
    (step_bull price ma10 ma20 slope st).rs.map ruleOfReason =
      st.rs.map ruleOfReason ++
        (fired_bull price ma10 ma20 slope).filter ruleEmitsReason := by
  cases ma10 with
  | none => simp [step_bull, fired_bull]
  | some m10 =>
    cases ma20 with
    | none => simp [step_bull, fired_bull]
    | some m20 =>
      cases slope with
      | none => simp [step_bull, fired_bull]
      | some sl =>
        simp only [step_bull, fired_bull]
        split_ifs <;> simp [ruleOfReason, ruleEmitsReason]

/-- The scoring pipeline applied to the empty initial state. -/
def scoreState (price : ℚ) (m : MAs) (rsi volume_rel ma20_slope : Option ℚ)
    (days_below_ma10 : ℕ) (market_breadth : Option (Option ℚ)) :
    ScoreState :=
  step_bull price m.ma10 m.ma20 ma20_slope
    (step_breadth market_breadth
      (step_rsi price m.ma10 rsi
        (step_volume price m.ma10 volume_rel
          (step_days days_below_ma10
            (step_slope ma20_slope
              (step_ma60 price m.ma60
                (step_ma20 price m.ma20
                  (step_ma10 price m.ma10 ⟨0, 0, []⟩))))))))

theorem scoreState_reasons (price : ℚ) (m : MAs)
    (rsi volume_rel ma20_slope : Option ℚ) (days_below_ma10 : ℕ)
    (market_breadth : Option (Option ℚ)) :
    (scoreState price m rsi volume_rel ma20_slope days_below_ma10
        market_breadth).rs.map ruleOfReason =
      (firedRules price m rsi volume_rel ma20_slope days_below_ma10
        market_breadth).filter ruleEmitsReason := by
  unfold scoreState firedRules
  rw [step_bull_reasons, step_breadth_reasons, step_rsi_reasons,
    step_volume_reasons, step_days_reasons, step_slope_reasons,
    step_ma60_reasons, step_ma20_reasons, step_ma10_reasons]
  simp [List.filter_append, List.append_assoc]

theorem generate_smart_signal_eq (price : ℚ) (m : MAs)
    (rsi volume_rel ma20_slope : Option ℚ) (days_below_ma10 : ℕ)
    (market_breadth : Option (Option ℚ)) (hp : price ≠ 0) :
    generate_smart_signal price (some m) rsi volume_rel ma20_slope
        days_below_ma10 market_breadth =
      (let st := scoreState price m rsi volume_rel ma20_slope
          days_below_ma10 market_breadth
       let net := st.buy - st.sell
       ⟨if net ≥ 4 then .buy
        else if net ≥ 2 then .hold
        else if net ≥ 0 then .watch
        else if net ≥ -2 then .reduce
        else .sell,
        min 5 (max 1 net.natAbs), st.rs.take 5,
        some ⟨st.buy, st.sell, net⟩⟩) := by
  unfold generate_smart_signal scoreState
  simp only [hp, if_false]

/-- Truth table of the action thresholds (shared helper). -/
theorem actionChain_spec (n : ℤ) :
    ((if n ≥ 4 then Action.buy
      else if n ≥ 2 then Action.hold
      else if n ≥ 0 then Action.watch
      else if n ≥ -2 then Action.reduce
      else Action.sell) = Action.buy ↔ 4 ≤ n)
  ∧ ((if n ≥ 4 then Action.buy
      else if n ≥ 2 then Action.hold
      else if n ≥ 0 then Action.watch
      else if n ≥ -2 then Action.reduce
      else Action.sell) = Action.hold ↔ 2 ≤ n ∧ n < 4)
  ∧ ((if n ≥ 4 then Action.buy
      else if n ≥ 2 then Action.hold
      else if n ≥ 0 then Action.watch
      else if n ≥ -2 then Action.reduce
      else Action.sell) = Action.watch ↔ 0 ≤ n ∧ n < 2)
  ∧ ((if n ≥ 4 then Action.buy
      else if n ≥ 2 then Action.hold
      else if n ≥ 0 then Action.watch
      else if n ≥ -2 then Action.reduce
      else Action.sell) = Action.reduce ↔ -2 ≤ n ∧ n < 0)
  ∧ ((if n ≥ 4 then Action.buy
      else if n ≥ 2 then Action.hold
      else if n ≥ 0 then Action.watch
      else if n ≥ -2 then Action.reduce
      else Action.sell) = Action.sell ↔ n < -2) := by
  split_ifs with c1 c2 c3 c4 <;>
    refine ⟨?_, ?_, ?_, ?_, ?_⟩ <;> simp <;> omega

/-- Claim C3: whenever scoring runs (non-empty MA dict, truthy price),
the action is the exact threshold function of
`net_score = buy_score − sell_score` (≥4 buy, ≥2 hold, ≥0 watch, ≥−2
reduce, else sell) and the confidence is `min(5, max(1, |net_score|))`,
hence always within [1, 5]. -/
theorem claim_C3_signal_thresholds (price : ℚ) (m : MAs)
    (rsi volume_rel ma20_slope : Option ℚ) (days_below_ma10 : ℕ)
    (market_breadth : Option (Option ℚ)) (hp : price ≠ 0) :
    ∃ sc : Scores,
      (generate_smart_signal price (some m) rsi volume_rel ma20_slope
          days_below_ma10 market_breadth).scores = some sc
    ∧ sc.net_score = sc.buy_score - sc.sell_score
    ∧ ((generate_smart_signal price (some m) rsi volume_rel ma20_slope
          days_below_ma10 market_breadth).action = Action.buy ↔
        4 ≤ sc.net_score)
    ∧ ((generate_smart_signal price (some m) rsi volume_rel ma20_slope
          days_below_ma10 market_breadth).action = Action.hold ↔
        2 ≤ sc.net_score ∧ sc.net_score < 4)
    ∧ ((generate_smart_signal price (some m) rsi volume_rel ma20_slope
          days_below_ma10 market_breadth).action = Action.watch ↔
        0 ≤ sc.net_score ∧ sc.net_score < 2)
    ∧ ((generate_smart_signal price (some m) rsi volume_rel ma20_slope
          days_below_ma10 market_breadth).action = Action.reduce ↔
        -2 ≤ sc.net_score ∧ sc.net_score < 0)
    ∧ ((generate_smart_signal price (some m) rsi volume_rel ma20_slope
          days_below_ma10 market_breadth).action = Action.sell ↔
        sc.net_score < -2)
    ∧ (generate_smart_signal price (some m) rsi volume_rel ma20_slope
          days_below_ma10 market_breadth).confidence =
        min 5 (max 1 sc.net_score.natAbs)
    ∧ 1 ≤ (generate_smart_signal price (some m) rsi volume_rel ma20_slope
          days_below_ma10 market_breadth).confidence
    ∧ (generate_smart_signal price (some m) rsi volume_rel ma20_slope
          days_below_ma10 market_breadth).confidence ≤ 5 := by
  rw [generate_smart_signal_eq price m rsi volume_rel ma20_slope
    days_below_ma10 market_breadth hp]
  simp only []
  set st := scoreState price m rsi volume_rel ma20_slope days_below_ma10
    market_breadth with hst
  refine ⟨⟨st.buy, st.sell, st.buy - st.sell⟩, rfl, rfl, ?_, ?_, ?_, ?_, ?_,
    rfl, ?_, ?_⟩
  · exact (actionChain_spec (st.buy - st.sell)).1
  · exact (actionChain_spec (st.buy - st.sell)).2.1
  · exact (actionChain_spec (st.buy - st.sell)).2.2.1
  · exact (actionChain_spec (st.buy - st.sell)).2.2.2.1
  · exact (actionChain_spec (st.buy - st.sell)).2.2.2.2
  · omega
  · omega

theorem claim_C3_signal_thresholds_witness :
    ∃ sc : Scores,
      (generate_smart_signal 1 (some ⟨none, none, none, none⟩) none none
          none 0 none).scores = some sc
    ∧ sc.net_score = sc.buy_score - sc.sell_score
    ∧ ((generate_smart_signal 1 (some ⟨none, none, none, none⟩) none none
          none 0 none).action = Action.buy ↔ 4 ≤ sc.net_score)
    ∧ ((generate_smart_signal 1 (some ⟨none, none, none, none⟩) none none
          none 0 none).action = Action.hold ↔
        2 ≤ sc.net_score ∧ sc.net_score < 4)
    ∧ ((generate_smart_signal 1 (some ⟨none, none, none, none⟩) none none
          none 0 none).action = Action.watch ↔
        0 ≤ sc.net_score ∧ sc.net_score < 2)
    ∧ ((generate_smart_signal 1 (some ⟨none, none, none, none⟩) none none
          none 0 none).action = Action.reduce ↔
        -2 ≤ sc.net_score ∧ sc.net_score < 0)
    ∧ ((generate_smart_signal 1 (some ⟨none, none, none, none⟩) none none
          none 0 none).action = Action.sell ↔ sc.net_score < -2)
    ∧ (generate_smart_signal 1 (some ⟨none, none, none, none⟩) none none
          none 0 none).confidence = min 5 (max 1 sc.net_score.natAbs)
    ∧ 1 ≤ (generate_smart_signal 1 (some ⟨none, none, none, none⟩) none
          none none 0 none).confidence
    ∧ (generate_smart_signal 1 (some ⟨none, none, none, none⟩) none none
          none 0 none).confidence ≤ 5 :=
  claim_C3_signal_thresholds 1 ⟨none, none, none, none⟩ none none none 0
    none (by norm_num)

/-- Counterexample to claim C4 as stated: with only MA60 = 2 supplied and
price 1, the below-MA60 rule fires (sell score becomes 1) yet the
returned reasons list is empty — a fired additive rule contributed no
textual reason, and the score breakdown cannot be reconstructed from the
reasons. -/
theorem claim_C4_counterexample :
    (generate_smart_signal 1 (some ⟨none, none, none, some 2⟩) none none
        none 0 none).reasons = []
  ∧ firedRules 1 ⟨none, none, none, some 2⟩ none none none 0 none =
      [RuleId.ma60Below]
  ∧ (generate_smart_signal 1 (some ⟨none, none, none, some 2⟩) none none
        none 0 none).scores = some ⟨0, 1, -1⟩ := by
  refine ⟨?_, ?_, ?_⟩ <;> with_unfolding_all rfl

/-- Claim C4 (amended): the returned reasons correspond, in program
order, to the fired scoring rules that carry a reason text — three rules
(below MA60 and the two mild MA20-slope adjustments) fire silently, and
the list is truncated to the first five reasons. -/
theorem claim_C4_reasons_match_rules (price : ℚ) (m : MAs)
    (rsi volume_rel ma20_slope : Option ℚ) (days_below_ma10 : ℕ)
    (market_breadth : Option (Option ℚ)) (hp : price ≠ 0) :
    (generate_smart_signal price (some m) rsi volume_rel ma20_slope
        days_below_ma10 market_breadth).reasons.map ruleOfReason =
      ((firedRules price m rsi volume_rel ma20_slope days_below_ma10
        market_breadth).filter ruleEmitsReason).take 5 := by
  rw [generate_smart_signal_eq price m rsi volume_rel ma20_slope
    days_below_ma10 market_breadth hp]
  simp only []
  rw [List.map_take, scoreState_reasons]

theorem claim_C4_reasons_match_rules_witness :
    (generate_smart_signal 1 (some ⟨none, none, some (1 / 2), none⟩) none
        none none 0 none).reasons.map ruleOfReason =
      ((firedRules 1 ⟨none, none, some (1 / 2), none⟩ none none none 0
        none).filter ruleEmitsReason).take 5 :=
  claim_C4_reasons_match_rules 1 ⟨none, none, some (1 / 2), none⟩ none none
    none 0 none (by norm_num)

/-! ### Contextual recommendation
(`generate_contextual_recommendation`, src/technical.py)

Chinese strings (action_cn, context, reasoning, risk warnings, position
advice) are abstracted to tags, one constructor per distinct source
string; interpolated numbers are dropped from the tags.  The unused
`index_code` / `index_name` / `risk_data` passthrough parameters and the
dead local `val_level` of the source are omitted. -/

inductive TrendStrength where
  | strong | medium | weak
deriving DecidableEq

inductive ValBand where
  | low | medium | high | unknown
deriving DecidableEq

inductive PosBand where
  | heavy | medium | light | empty
deriving DecidableEq

inductive RecAction where
  | strong_buy | hold | take_profit | small_position | accumulate
  | reduce | wait | buy_dip | trim
deriving DecidableEq

/-- The distinct `action_cn` strings (积极买入, 坚定持有, 逐步止盈,
小仓试探, 分批布局, 减仓避险, 耐心等待, 逢低买入, 适度减仓, 持有观望,
等待回调). -/
inductive ActionCn where
  | activeBuy | holdFirm | takeProfitStep | probeSmall | accumulateBatches
  | reduceRisk | waitPatiently | buyDipCn | trimSome | holdWatch
  | waitPullback
deriving DecidableEq

inductive RecContext where
  | goldenBuy | bestHolding | highRisk | chaseHigh | dipLayout
  | highRiskZone | waitForChance | rangeLayout | highRange | unclear
deriving DecidableEq

/-- Reasoning strings, one tag per situation line plus the three
override notes. -/
inductive RNote where
  | trendValPos1 | roomToAdd1
  | trendVal2 | keepHolding2
  | trendStillButVal3 | takeProfit3
  | trendButVal4 | smallOnly4
  | shortWeakVal5 | valueAttractive5
  | trendAndVal6 | exposure6
  | trendVal7 | correctStay7
  | trendButVal8a
  | trendHigh8b
  | unclear8c
  | rsiWaitPullback
  | rsiOversoldBounce
  | optimism
deriving DecidableEq

/-- Risk-warning strings. -/
inductive RWarn where
  | valuationDrawdown3
  | chaseHighRisk4
  | mayKeepFalling5
  | doubleKill6
  | rangeBreakdown8
  | rsiOverbought
  | sentimentPessimistic
deriving DecidableEq

inductive PosAdvice where
  | p1 | p2 | p3 | p4 | p5 | p6 | p7 | p8 | p9 | p10
deriving DecidableEq

inductive RiskLevel where
  | low | mid | high
deriving DecidableEq

inductive MALabel where
  | ma20 | ma60
deriving DecidableEq

structure SupportLevel where
  label : MALabel
  price : ℚ
  distance : ℚ
deriving DecidableEq

structure RiskEstimate where
  estimated_drawdown : ℤ
  support_levels : List SupportLevel
  risk_level : RiskLevel
deriving DecidableEq

/-- Embeds `estimate_max_drawdown_risk` (technical.py).  `base_drawdown`
stays an integer throughout, so `round(base_drawdown, 1)` is the
identity.  The support-level distance divides by the current price
(ℚ-division is total where Python would raise on zero). -/
def estimate_max_drawdown_risk (current_price : ℚ) (mas : MAs)
    (valuation_percentile : Option ℚ) (historical_volatility : Option ℚ) :
    RiskEstimate :=
  let support20 : List SupportLevel :=
    match mas.ma20 with
    | some m =>
      if m ≠ 0 then
        [⟨MALabel.ma20, m, roundDec 1 ((current_price - m) /
          current_price * 100)⟩]
      else []
    | none => []
  let support60 : List SupportLevel :=
    match mas.ma60 with
    | some m =>
      if m ≠ 0 then
        [⟨MALabel.ma60, m, roundDec 1 ((current_price - m) /
          current_price * 100)⟩]
      else []
    | none => []
  let base1 : ℤ := 5
  let base2 : ℤ :=
    match valuation_percentile with
    | some vp =>
      if vp > 80 then base1 + 8
      else if vp > 60 then base1 + 4
      else if vp < 30 then base1 - 2
      else base1
    | none => base1
  let base3 : ℤ :=
    match mas.ma20 with
    | some m =>
      if m ≠ 0 ∧ current_price > m then
        let distance := (current_price - m) / m * 100
        if distance > 10 then base2 + 5
        else if distance > 5 then base2 + 2
        else base2
      else base2
    | none => base2
  let base4 : ℤ :=
    match historical_volatility with
    | some hv =>
      if hv ≠ 0 then
        if hv > 25 then base3 + 3
        else if hv < 15 then base3 - 2
        else base3
      else base3
    | none => base3
  let risk :=
    if base4 ≥ 15 then RiskLevel.high
    else if base4 ≥ 8 then RiskLevel.mid
    else RiskLevel.low
  ⟨base4, support20 ++ support60, risk⟩

/-- The `valuation_data` dict: PE/PB percentiles (its `level` entry is
read into a dead local by the source and is omitted). -/
structure ValData where
  pe_percentile : Option ℚ
  pb_percentile : Option ℚ
deriving DecidableEq

/-- `val_percentile` extraction of `generate_contextual_recommendation`:
average of the two percentiles, else whichever exists. -/
def valPercentileOf (valuation_data : Option ValData) : Option ℚ :=
  match valuation_data with
  | none => none
  | some v =>
    match v.pe_percentile, v.pb_percentile with
    | some a, some b => some ((a + b) / 2)
    | some a, none => some a
    | none, some b => some b
    | none, none => none

/-- Trend classification: net ≥ 3 strong, ≥ 0 medium, else weak. -/
def trendStrengthOf (net_score : ℤ) : TrendStrength :=
  if net_score ≥ 3 then .strong
  else if net_score ≥ 0 then .medium
  else .weak

/-- Valuation classification: ≤ 30 low, ≥ 70 high, else medium; no
percentile → unknown. -/
def valuationLevelOf (val_percentile : Option ℚ) : ValBand :=
  match val_percentile with
  | some p =>
    if p ≤ 30 then .low
    else if p ≥ 70 then .high
    else .medium
  | none => .unknown

/-- Position classification: ≥ 30 heavy, ≥ 15 medium, > 0 light, else
empty. -/
def positionLevelOf (w : ℚ) : PosBand :=
  if w ≥ 30 then .heavy
  else if w ≥ 15 then .medium
  else if w > 0 then .light
  else .empty

/-- The fields the decision matrix fills in before the overrides run. -/
structure TableResult where
  action : RecAction
  action_cn : ActionCn
  confidence : ℕ
  context : RecContext
  reasoning : List RNote
  risk_warnings : List RWarn
  position_advice : PosAdvice
deriving DecidableEq

/-- The 8-situation decision matrix of
`generate_contextual_recommendation` (situations 1–7 plus the three-way
else of situation 8), in source order. -/
def decisionTable (trend : TrendStrength) (val : ValBand) (pos : PosBand) :
    TableResult :=
  if trend = .strong ∧ val = .low ∧ (pos = .light ∨ pos = .empty) then
    ⟨.strong_buy, .activeBuy, 5, .goldenBuy, [.trendValPos1, .roomToAdd1],
      [], .p1⟩
  else if trend = .strong ∧ val = .low ∧ pos = .heavy then
    ⟨.hold, .holdFirm, 4, .bestHolding, [.trendVal2, .keepHolding2], [],
      .p2⟩
  else if trend = .strong ∧ val = .high ∧ (pos = .heavy ∨ pos = .medium)
      then
    ⟨.take_profit, .takeProfitStep, 4, .highRisk,
      [.trendStillButVal3, .takeProfit3], [.valuationDrawdown3], .p3⟩
  else if trend = .strong ∧ val = .high ∧ (pos = .light ∨ pos = .empty)
      then
    ⟨.small_position, .probeSmall, 2, .chaseHigh,
      [.trendButVal4, .smallOnly4], [.chaseHighRisk4], .p4⟩
  else if trend = .weak ∧ val = .low then
    ⟨.accumulate, .accumulateBatches, 3, .dipLayout,
      [.shortWeakVal5, .valueAttractive5], [.mayKeepFalling5], .p5⟩
  else if trend = .weak ∧ val = .high ∧ (pos = .heavy ∨ pos = .medium)
      then
    ⟨.reduce, .reduceRisk, 5, .highRiskZone, [.trendAndVal6, .exposure6],
      [.doubleKill6], .p6⟩
  else if trend = .weak ∧ val = .high ∧ (pos = .light ∨ pos = .empty) then
    ⟨.wait, .waitPatiently, 4, .waitForChance, [.trendVal7, .correctStay7],
      [], .p7⟩
  else if val = .low ∧ (pos = .light ∨ pos = .empty) then
    ⟨.buy_dip, .buyDipCn, 3, .rangeLayout, [.trendButVal8a], [], .p8⟩
  else if val = .high ∧ (pos = .heavy ∨ pos = .medium) then
    ⟨.trim, .trimSome, 3, .highRange, [.trendHigh8b], [.rangeBreakdown8],
      .p9⟩
  else
    ⟨.hold, .holdWatch, 2, .unclear, [.unclear8c], [], .p10⟩

/-- The `RSI 修正` block: with a truthy RSI above 75 a warning is
appended and a buy-type action of the table (`strong_buy` or `buy_dip`,
and only those) is downgraded to `wait`; below 25 an oversold-bounce
note is appended. -/
def applyRsi (rsi : Option ℚ) (t : TableResult) : TableResult :=
  match rsi with
  | none => t
  | some r =>
    if r = 0 then t
    else if r > 75 then
      let withWarn :=
        { t with risk_warnings := t.risk_warnings ++ [.rsiOverbought] }
      if t.action = .strong_buy ∨ t.action = .buy_dip then
        { withWarn with
            action := .wait
            action_cn := .waitPullback
            reasoning := withWarn.reasoning ++ [.rsiWaitPullback] }
      else withWarn
    else if r < 25 then
      { t with reasoning := t.reasoning ++ [.rsiOversoldBounce] }
    else t

/-- The `市场情绪修正` block: a truthy sentiment dict appends a
systemic-risk warning below −30 or an optimism note above 30. -/
def applySentiment (sentiment_score : Option ℚ) (t : TableResult) :
    TableResult :=
  match sentiment_score with
  | none => t
  | some s =>
    if s < -30 then
      { t with risk_warnings := t.risk_warnings ++ [.sentimentPessimistic] }
    else if s > 30 then
      { t with reasoning := t.reasoning ++ [.optimism] }
    else t

structure RecMetrics where
  trend : TrendStrength
  valuation : ValBand
  valuation_pct_shown : Option ℚ
  position : PosBand
  estimated_drawdown : ℤ
  risk_level : RiskLevel
deriving DecidableEq

structure Recommendation where
  action : RecAction
  action_cn : ActionCn
  confidence : ℕ
  context : RecContext
  reasoning : List RNote
  risk_warning : List RWarn
  position_advice : PosAdvice
  metrics : RecMetrics
deriving DecidableEq

/-- Embeds `generate_contextual_recommendation` (technical.py).  The
inputs are the fields the source reads from its dict arguments:
`net_score` (default 0), `price` (default 0), the MA dict, the RSI
value, the valuation percentiles, the position weight (`none` for a
falsy dict, key default 0) and the sentiment summary score (`none` for a
falsy dict, key default 0).  The percentile shown in `metrics` follows
Python truthiness (`... if val_percentile else val_cn`). -/
def generate_contextual_recommendation (net_score : ℤ) (price : ℚ)
    (mas : MAs) (rsi : Option ℚ) (valuation_data : Option ValData)
    (position_data sentiment_data : Option ℚ) : Recommendation :=
  let val_percentile := valPercentileOf valuation_data
  let trend_strength := trendStrengthOf net_score
  let valuation_level := valuationLevelOf val_percentile
  let position_weight := position_data.getD 0
  let position_level := positionLevelOf position_weight
  let tbl := decisionTable trend_strength valuation_level position_level
  let final := applySentiment sentiment_data (applyRsi rsi tbl)
  let risk_estimate := estimate_max_drawdown_risk price mas val_percentile
    none
  ⟨final.action, final.action_cn, final.confidence, final.context,
    final.reasoning, final.risk_warnings, final.position_advice,
    ⟨trend_strength, valuation_level,
      (match val_percentile with
        | some p => if p ≠ 0 then some p else none
        | none => none),
      position_level, risk_estimate.estimated_drawdown,
      risk_estimate.risk_level⟩⟩

theorem applySentiment_fields (sd : Option ℚ) (t : TableResult) :
    (applySentiment sd t).action = t.action
  ∧ (applySentiment sd t).action_cn = t.action_cn
  ∧ (applySentiment sd t).confidence = t.confidence
  ∧ (applySentiment sd t).context = t.context
  ∧ (applySentiment sd t).position_advice = t.position_advice := by
  cases sd with
  | none => exact ⟨rfl, rfl, rfl, rfl, rfl⟩
  | some s =>
    simp only [applySentiment]
    split_ifs <;> exact ⟨rfl, rfl, rfl, rfl, rfl⟩

theorem applySentiment_warn_mem {w : RWarn} {t : TableResult}
    (sd : Option ℚ) (h : w ∈ t.risk_warnings) :
    w ∈ (applySentiment sd t).risk_warnings := by
  cases sd with
  | none => exact h
  | some s =>
    simp only [applySentiment]
    split_ifs <;> simp [h]

theorem applyRsi_spec {r : ℚ} (hr : 75 < r) (t : TableResult) :
    (applyRsi (some r) t).action =
      (if t.action = .strong_buy ∨ t.action = .buy_dip then .wait
        else t.action)
  ∧ RWarn.rsiOverbought ∈ (applyRsi (some r) t).risk_warnings
  ∧ (applyRsi (some r) t).confidence = t.confidence
  ∧ (applyRsi (some r) t).context = t.context
  ∧ (applyRsi (some r) t).position_advice = t.position_advice := by
  have h0 : ¬ r = 0 := by linarith
  have h75 : r > 75 := hr
  simp only [applyRsi, h0, if_false, h75, if_true]
  by_cases ha : t.action = .strong_buy ∨ t.action = .buy_dip
  · simp [ha]
  · simp [ha]

/-- Counterexample to claim C5 as stated: with a weak trend, a low
valuation (percentiles 10/10) and no position, the table produces
`accumulate` — a buy-type action — and RSI = 80 > 75 appends the
overbought warning, yet the final action remains `accumulate`: only
`strong_buy` and `buy_dip` are downgraded to `wait`. -/
theorem claim_C5_counterexample :
    (decisionTable (trendStrengthOf (-1))
        (valuationLevelOf (valPercentileOf (some ⟨some 10, some 10⟩)))
        (positionLevelOf ((none : Option ℚ).getD 0))).action =
      RecAction.accumulate
  ∧ (generate_contextual_recommendation (-1) 1 ⟨none, none, none, none⟩
        (some 80) (some ⟨some 10, some 10⟩) none none).action =
      RecAction.accumulate
  ∧ (generate_contextual_recommendation (-1) 1 ⟨none, none, none, none⟩
        (some 80) (some ⟨some 10, some 10⟩) none none).risk_warning =
      [RWarn.mayKeepFalling5, RWarn.rsiOverbought] := by
  refine ⟨?_, ?_, ?_⟩ <;> with_unfolding_all rfl

/-- Claim C5 (amended): when RSI > 75, an overbought warning is always
appended, the table's `strong_buy` and `buy_dip` actions (and only
those buy-type actions — `accumulate` and `small_position` are not
affected) are downgraded to `wait`, and the override runs after the
table lookup: confidence, context and position advice keep the table's
values. -/
theorem claim_C5_rsi_override (net_score : ℤ) (price : ℚ) (mas : MAs)
    (r : ℚ) (vd : Option ValData) (pd sd : Option ℚ) (hr : 75 < r) :
    RWarn.rsiOverbought ∈ (generate_contextual_recommendation net_score
      price mas (some r) vd pd sd).risk_warning
  ∧ (((decisionTable (trendStrengthOf net_score)
        (valuationLevelOf (valPercentileOf vd))
        (positionLevelOf (pd.getD 0))).action = RecAction.strong_buy ∨
      (decisionTable (trendStrengthOf net_score)
        (valuationLevelOf (valPercentileOf vd))
        (positionLevelOf (pd.getD 0))).action = RecAction.buy_dip) →
      (generate_contextual_recommendation net_score price mas (some r) vd
        pd sd).action = RecAction.wait)
  ∧ ((decisionTable (trendStrengthOf net_score)
        (valuationLevelOf (valPercentileOf vd))
        (positionLevelOf (pd.getD 0))).action ≠ RecAction.strong_buy →
      (decisionTable (trendStrengthOf net_score)
        (valuationLevelOf (valPercentileOf vd))
        (positionLevelOf (pd.getD 0))).action ≠ RecAction.buy_dip →
      (generate_contextual_recommendation net_score price mas (some r) vd
        pd sd).action =
        (decisionTable (trendStrengthOf net_score)
          (valuationLevelOf (valPercentileOf vd))
          (positionLevelOf (pd.getD 0))).action)
  ∧ (generate_contextual_recommendation net_score price mas (some r) vd
      pd sd).confidence =
      (decisionTable (trendStrengthOf net_score)
        (valuationLevelOf (valPercentileOf vd))
        (positionLevelOf (pd.getD 0))).confidence
  ∧ (generate_contextual_recommendation net_score price mas (some r) vd
      pd sd).context =
      (decisionTable (trendStrengthOf net_score)
        (valuationLevelOf (valPercentileOf vd))
        (positionLevelOf (pd.getD 0))).context
  ∧ (generate_contextual_recommendation net_score price mas (some r) vd
      pd sd).position_advice =
      (decisionTable (trendStrengthOf net_score)
        (valuationLevelOf (valPercentileOf vd))
        (positionLevelOf (pd.getD 0))).position_advice := by
  set tbl := decisionTable (trendStrengthOf net_score)
    (valuationLevelOf (valPercentileOf vd)) (positionLevelOf (pd.getD 0))
    with htbl
  have hfa : (generate_contextual_recommendation net_score price mas
      (some r) vd pd sd).action =
      (applySentiment sd (applyRsi (some r) tbl)).action := rfl
  have hfw : (generate_contextual_recommendation net_score price mas
      (some r) vd pd sd).risk_warning =
      (applySentiment sd (applyRsi (some r) tbl)).risk_warnings := rfl
  have hfc : (generate_contextual_recommendation net_score price mas
      (some r) vd pd sd).confidence =
      (applySentiment sd (applyRsi (some r) tbl)).confidence := rfl
  have hfx : (generate_contextual_recommendation net_score price mas
      (some r) vd pd sd).context =
      (applySentiment sd (applyRsi (some r) tbl)).context := rfl
  have hfp : (generate_contextual_recommendation net_score price mas
      (some r) vd pd sd).position_advice =
      (applySentiment sd (applyRsi (some r) tbl)).position_advice := rfl
  obtain ⟨ha, hw, hc, hctx, hpa⟩ := applyRsi_spec hr tbl
  obtain ⟨sa, _, sc, sctx, spa⟩ :=
    applySentiment_fields sd (applyRsi (some r) tbl)
  refine ⟨?_, ?_, ?_, ?_, ?_, ?_⟩
  · rw [hfw]
    exact applySentiment_warn_mem sd hw
  · intro hbuy
    rw [hfa, sa, ha, if_pos hbuy]
  · intro h1 h2
    rw [hfa, sa, ha, if_neg (by tauto)]
  · rw [hfc, sc, hc]
  · rw [hfx, sctx, hctx]
  · rw [hfp, spa, hpa]

theorem claim_C5_rsi_override_witness :
    RWarn.rsiOverbought ∈ (generate_contextual_recommendation 3 1
      ⟨none, none, none, none⟩ (some 80) (some ⟨some 10, some 10⟩) none
      none).risk_warning
  ∧ (generate_contextual_recommendation 3 1 ⟨none, none, none, none⟩
      (some 80) (some ⟨some 10, some 10⟩) none none).action =
      RecAction.wait := by
  have h := claim_C5_rsi_override 3 1 ⟨none, none, none, none⟩ 80
    (some ⟨some 10, some 10⟩) none none (by norm_num)
  refine ⟨h.1, h.2.1 ?_⟩
  left
  with_unfolding_all rfl

end InvestReport
